import Mathlib

/-!
Verification development for the simplesimdb simulation-data manager
(`src/simplesimdb/__init__.py`, class `Manager`).

The embedding models:
 * `hashinput` : SHA-1 of the canonical JSON serialization
   (`json.dumps(js, sort_keys=True, ensure_ascii=True)`), with SHA-1
   implemented in full over `Nat` words (mod 2^32).
 * the on-disk state as an association list from path strings to abstract
   file contents; JSON files store the parsed value (the JSON library is
   assumed to round-trip, as the spec states), output files are opaque.
 * the external executable as a black-box function from its argument
   vector to an outcome (success writes the output file; failure may have
   left a partial output file), matching the subprocess contract.
 * `create`, `register`, `delete`, `count`, `exists`, `files`, `table`,
   `delete_all`, `outfile`, `jsonfile`, `get_registry`, `set_registry`
   translated statement by statement from the source.  Exceptions are
   modeled in state-passing style: a raising operation returns the
   exception together with the state at the raise point.

Modeling notes (deliberate, claim-irrelevant restrictions):
 * JSON values cover null, booleans, ints, integer-valued floats
   (rendered `n.0`, exactly Python's `repr` on such floats) and strings;
   nested containers are not exercised by any claim.
 * `os.path.join dir name` is modeled as `dir ++ "/" ++ name` (no
   trailing-slash normalization); `os.listdir` lists the entries of the
   managed directory, which the Manager never nests.
 * Python `print` calls are recorded in an output trace.
-/

set_option linter.unusedVariables false

/-! ## Hexadecimal digits (Python `hex()` / `"%x"`, lowercase) -/

/-- Value of one lowercase hexadecimal digit character (inverse of `Nat.digitChar`
on digits `< 16`); used only to state that hex rendering is injective. -/
def hexVal (c : Char) : Nat :=
  if c.toNat ≥ 97 then c.toNat - 87 else c.toNat - 48

/-- Read a big-endian list of hexadecimal digit characters back into a number. -/
def natOfHex (l : List Char) : Nat :=
  l.foldl (fun a c => a * 16 + hexVal c) 0

/-- Fuel-driven hexadecimal digit expansion (most significant digit first).
The fuel only bounds the recursion depth; `hexDigits` supplies enough. -/
def hexDigitsAux : Nat → Nat → List Char
  | 0, n => [Nat.digitChar n]
  | fuel + 1, n =>
    if n < 16 then [Nat.digitChar n]
    else hexDigitsAux fuel (n / 16) ++ [Nat.digitChar (n % 16)]

/-- Lowercase hexadecimal digits of `n`, as produced by Python's `hex`
(without the `0x`) and `"%x"` formatting. -/
def hexDigits (n : Nat) : List Char := hexDigitsAux n n

/-- Python `hex(n)` for `n ≥ 0`: the string `0x` followed by lowercase hex digits. -/
def pyHex (n : Nat) : String := "0x" ++ String.mk (hexDigits n)

/-! ## SHA-1 (`hashlib.sha1`), over `Nat` with explicit reduction mod 2^32 -/

/-- The SHA-1 word modulus, 2^32. -/
def M32 : Nat := 4294967296

/-- Rotate a 32-bit word left by `k` bits. -/
def rotl32 (k x : Nat) : Nat := ((x <<< k) ||| (x >>> (32 - k))) % M32

/-- SHA-1 round function: choice / parity / majority, by round index. -/
def sha1F (i b c d : Nat) : Nat :=
  if i < 20 then (b &&& c) ||| ((b ^^^ 4294967295) &&& d)
  else if i < 40 then (b ^^^ c) ^^^ d
  else if i < 60 then ((b &&& c) ||| (b &&& d)) ||| (c &&& d)
  else (b ^^^ c) ^^^ d

/-- SHA-1 round constant, by round index. -/
def sha1K (i : Nat) : Nat :=
  if i < 20 then 1518500249
  else if i < 40 then 1859775393
  else if i < 60 then 2400959708
  else 3395469782

/-- One SHA-1 compression round on the state `(a, b, c, d, e)`. -/
def sha1Round (s : Nat × Nat × Nat × Nat × Nat) (iw : Nat × Nat) :
    Nat × Nat × Nat × Nat × Nat :=
  let a := s.1; let b := s.2.1; let c := s.2.2.1; let d := s.2.2.2.1; let e := s.2.2.2.2
  let temp := (rotl32 5 a + sha1F iw.1 b c d + e + sha1K iw.1 + iw.2) % M32
  (temp, a, rotl32 30 b, c, d)

/-- Group a byte list into big-endian 32-bit words (4 bytes each). -/
def wordsOfBytes : List Nat → List Nat
  | a :: b :: c :: d :: t => (((a * 256 + b) * 256 + c) * 256 + d) :: wordsOfBytes t
  | _ => []

/-- Extend 16 message words to the 80 words of the SHA-1 message schedule. -/
def sha1Extend (w : List Nat) : List Nat :=
  (List.range 64).foldl
    (fun w _ =>
      w ++ [rotl32 1 ((((w.getD (w.length - 3) 0) ^^^ (w.getD (w.length - 8) 0)) ^^^
        (w.getD (w.length - 14) 0)) ^^^ (w.getD (w.length - 16) 0))])
    w

/-- Process one 64-byte chunk, updating the five SHA-1 state words. -/
def sha1Chunk (h : Nat × Nat × Nat × Nat × Nat) (chunk : List Nat) :
    Nat × Nat × Nat × Nat × Nat :=
  let ws := sha1Extend (wordsOfBytes chunk)
  let f := ((List.range 80).zip ws).foldl sha1Round h
  ((h.1 + f.1) % M32, (h.2.1 + f.2.1) % M32, (h.2.2.1 + f.2.2.1) % M32,
    (h.2.2.2.1 + f.2.2.2.1) % M32, (h.2.2.2.2 + f.2.2.2.2) % M32)

/-- Big-endian 8-byte encoding of a (64-bit) number. -/
def be8 (n : Nat) : List Nat :=
  [(n >>> 56) % 256, (n >>> 48) % 256, (n >>> 40) % 256, (n >>> 32) % 256,
    (n >>> 24) % 256, (n >>> 16) % 256, (n >>> 8) % 256, n % 256]

/-- SHA-1 padding: append `0x80`, zero bytes up to 56 mod 64, then the
bit length as a big-endian 8-byte number. -/
def sha1Pad (msg : List Nat) : List Nat :=
  let len := msg.length
  let zeros := (120 - ((len + 1) % 64)) % 64
  msg ++ [128] ++ List.replicate zeros 0 ++ be8 (len * 8)

/-- Split a (padded) byte list into 64-byte chunks; the fuel is an upper
bound on the number of chunks and `sha1Words` supplies enough. -/
def chunks64 : Nat → List Nat → List (List Nat)
  | 0, _ => []
  | fuel + 1, l => if l.isEmpty then [] else l.take 64 :: chunks64 fuel (l.drop 64)

/-- The five 32-bit state words of the SHA-1 digest of a byte message. -/
def sha1Words (msg : List Nat) : Nat × Nat × Nat × Nat × Nat :=
  let padded := sha1Pad msg
  (chunks64 padded.length padded).foldl sha1Chunk
    (1732584193, 4023233417, 2562383102, 271733878, 3285377520)

/-- Render a 32-bit word as exactly 8 lowercase hex digits (zero padded). -/
def hex8 (w : Nat) : List Char :=
  List.replicate (8 - (hexDigits w).length) '0' ++ hexDigits w

/-- `hashlib.sha1(bytes).hexdigest()`: the 40-character lowercase hex digest. -/
def sha1Hex (msg : List Nat) : String :=
  let h := sha1Words msg
  String.mk (hex8 h.1 ++ hex8 h.2.1 ++ hex8 h.2.2.1 ++ hex8 h.2.2.2.1 ++ hex8 h.2.2.2.2)

/-! ## JSON values and canonical serialization
(`json.dumps(js, sort_keys=True, ensure_ascii=True)`, default separators) -/

/-- JSON values appearing in input records.  `jfloat n` stands for the
integer-valued Python float `float(n)`, which `repr` renders as `n.0`;
non-integral floats and nested containers are not needed by any claim. -/
inductive Jval where
  | jnull
  | jbool (b : Bool)
  | jint (n : Int)
  | jfloat (n : Int)
  | jstr (s : String)
deriving DecidableEq, Repr

/-- An input record: a Python dict from string keys to JSON values,
in insertion order (Python dicts are ordered and have no duplicate keys). -/
abbrev Record := List (String × Jval)

/-- Render a number as exactly 4 lowercase hex digits (zero padded), for
the `\uXXXX` escapes of `ensure_ascii=True`. -/
def hex4 (n : Nat) : List Char :=
  List.replicate (4 - (hexDigits n).length) '0' ++ hexDigits n

/-- Escape one character the way `json.dumps(..., ensure_ascii=True)` does:
literal for printable ASCII other than quote and backslash, two-character
escapes for the usual control characters, `\uXXXX` (with surrogate pairs
above the BMP) otherwise. -/
def escChar (c : Char) : List Char :=
  if c = '"' then ['\\', '"']
  else if c = '\\' then ['\\', '\\']
  else if c = '\n' then ['\\', 'n']
  else if c = '\r' then ['\\', 'r']
  else if c = '\t' then ['\\', 't']
  else if c.toNat = 8 then ['\\', 'b']
  else if c.toNat = 12 then ['\\', 'f']
  else if c.toNat < 32 ∨ c.toNat ≥ 127 then
    if c.toNat < 65536 then '\\' :: 'u' :: hex4 c.toNat
    else ('\\' :: 'u' :: hex4 (55296 + (c.toNat - 65536) / 1024)) ++
      ('\\' :: 'u' :: hex4 (56320 + (c.toNat - 65536) % 1024))
  else [c]

/-- Serialize a string: quote, escape every character, quote. -/
def escString (s : String) : List Char :=
  '"' :: (s.data.map escChar).flatten ++ ['"']

/-- Serialize one JSON value the way `json.dumps` renders it. -/
def jvalStr : Jval → List Char
  | .jnull => ['n', 'u', 'l', 'l']
  | .jbool true => ['t', 'r', 'u', 'e']
  | .jbool false => ['f', 'a', 'l', 's', 'e']
  | .jint n => (toString n).data
  | .jfloat n => (toString n).data ++ ['.', '0']
  | .jstr s => escString s

/-- Insert into a list sorted by `le` (stable insertion sort step). -/
def insortBy (le : α → α → Bool) (x : α) : List α → List α
  | [] => [x]
  | y :: ys => if le x y then x :: y :: ys else y :: insortBy le x ys

/-- Stable insertion sort by `le`; models Python's stable `sorted`. -/
def sortBy (le : α → α → Bool) : List α → List α
  | [] => []
  | x :: xs => insortBy le x (sortBy le xs)

/-- Key order on record entries (`sort_keys=True` sorts by the string key). -/
def keyLe (a b : String × Jval) : Bool := decide (a.1 ≤ b.1)

/-- Record entries in sorted key order, as `sort_keys=True` emits them. -/
def sortEntries (js : Record) : Record := sortBy keyLe js

/-- Join chunks with a separator (`", "` between object members). -/
def sepJoin (sep : List Char) : List (List Char) → List Char
  | [] => []
  | [x] => x
  | x :: y :: xs => x ++ sep ++ sepJoin sep (y :: xs)

/-- Canonical serialization of a record:
`json.dumps(js, sort_keys=True, ensure_ascii=True)` with the default
separators `", "` and `": "`, as a character list. -/
def dumps (js : Record) : List Char :=
  '{' :: sepJoin [',', ' ']
    ((sortEntries js).map (fun kv => escString kv.1 ++ ':' :: ' ' :: jvalStr kv.2)) ++ ['}']

/-- UTF-8 encoding of the serialization.  `ensure_ascii=True` output is pure
ASCII, where UTF-8 is the identity on code points. -/
def strBytes (l : List Char) : List Nat := l.map Char.toNat

/-- `Manager.hashinput`: hex SHA-1 of the canonical serialization. -/
def hashinput (js : Record) : String := sha1Hex (strBytes (dumps js))

/-! ## The on-disk state and the Manager -/

/-- Abstract contents of one file in the managed directory.  JSON files
store their parsed value (the spec assumes the JSON library round-trips);
output files are opaque blobs written by the executable. -/
inductive FData where
  | jsonF (v : Record)
  | regF (r : List (String × String))
  | outF (tag : Nat)
deriving DecidableEq, Repr

/-- The file system: an association list from path strings to contents.
Earlier entries shadow later ones (writes prepend after erasing). -/
abbrev FS := List (String × FData)

/-- Look up the contents at a path. -/
def fsGet (fs : FS) (p : String) : Option FData :=
  (fs.find? (fun e => e.1 == p)).map (fun e => e.2)

/-- `os.path.isfile`. -/
def fsIsFile (fs : FS) (p : String) : Bool := (fsGet fs p).isSome

/-- `os.remove` (on a path known to exist in all modeled flows). -/
def fsRemove (fs : FS) (p : String) : FS := fs.filter (fun e => e.1 != p)

/-- Write (create or overwrite) a file. -/
def fsWrite (fs : FS) (p : String) (d : FData) : FS := (p, d) :: fsRemove fs p

/-- The configuration of `Manager`: directory, output extension, executable. -/
structure Manager where
  directory : String
  filetype : String
  executable : String
deriving DecidableEq, Repr

/-- `os.path.join(directory, name)` for the flat managed directory. -/
def pjoin (dir name : String) : String := dir ++ "/" ++ name

/-- Path of the registry sidecar file `simplesimdb.json`. -/
def regPath (m : Manager) : String := pjoin m.directory "simplesimdb.json"

/-- `Manager.get_registry`: read `simplesimdb.json` if it exists, else the
empty mapping.  (Only `set_registry` ever writes this path in the modeled
flows, so the contents are a registry mapping whenever the file exists.) -/
def get_registry (m : Manager) (fs : FS) : List (String × String) :=
  match fsGet fs (regPath m) with
  | some (.regF r) => r
  | _ => []

/-- Python dict lookup on the registry mapping. -/
def rlookup (r : List (String × String)) (k : String) : Option String :=
  (r.find? (fun e => e.1 == k)).map (fun e => e.2)

/-- Python `del registry[k]` (keys are unique in a dict). -/
def rerase (r : List (String × String)) (k : String) : List (String × String) :=
  r.filter (fun e => e.1 != k)

/-- Python `registry[k] = v`: replace the binding if the key is present,
else append it. -/
def rinsert (r : List (String × String)) (k v : String) : List (String × String) :=
  match rlookup r k with
  | some _ => r.map (fun e => if e.1 == k then (k, v) else e)
  | none => r ++ [(k, v)]

/-- `Manager.set_registry`: write the registry file, then delete it again if
the mapping is empty. -/
def set_registry (m : Manager) (fs : FS) (r : List (String × String)) : FS :=
  let fs1 := fsWrite fs (regPath m) (.regF r)
  if r.isEmpty then fsRemove fs1 (regPath m) else fs1

/-- The display name used for all files of `js`: the registered name when
the hash is bound in the registry, else the hash itself.  (This lookup is
written out identically in the source's `jsonfile` and `outfile`.) -/
def resolveName (m : Manager) (fs : FS) (js : Record) : String :=
  let hashid := hashinput js
  match rlookup (get_registry m fs) hashid with
  | some name => name
  | none => hashid

/-- `Manager.jsonfile`: path of the input file. -/
def jsonfile (m : Manager) (fs : FS) (js : Record) : String :=
  pjoin m.directory (resolveName m fs js ++ ".json")

/-- `Manager.outfile`: path of the output file for restart index `n`. -/
def outfile (m : Manager) (fs : FS) (js : Record) (n : Nat) : String :=
  let simNum := if n > 0 then pyHex n else ""
  let name := resolveName m fs js
  if m.filetype == "json" then pjoin m.directory (name ++ simNum ++ "_out.json")
  else pjoin m.directory (name ++ simNum ++ "." ++ m.filetype)

/-- Exceptions escaping Manager methods: registry name clashes
(`Exception` in the source), `subprocess.CalledProcessError`, and the
`FileNotFoundError` raised by `os.remove` on a missing path. -/
inductive Exn where
  | nameError (msg : String)
  | cpe (stderr : List Nat)
  | fileNotFound (path : String)
deriving DecidableEq, Repr

/-- `Manager.register`, in state-passing style: the first component is the
raised exception if any, the second the resulting file system (unchanged at
every raise point, since the source raises before `set_registry`). -/
def register (m : Manager) (fs : FS) (js : Record) (name : String) : Option Exn × FS :=
  let registry := get_registry m fs
  let hashid := hashinput js
  if name == "simplesimdb" then
    (some (.nameError "The name simplesimdb is not allowed. Choose a different name!"), fs)
  else
    match rlookup registry hashid with
    | some bound =>
      if name != bound then
        (some (.nameError "already known under a different name"), fs)
      else if registry.any (fun kv => kv.2 == name && kv.1 != hashid) then
        (some (.nameError "already in use for a different simulation"), fs)
      else (none, set_registry m fs registry)
    | none =>
      if fsIsFile fs (pjoin m.directory (hashid ++ ".json")) then
        (some (.nameError "input file already exists under the raw key"), fs)
      else
        let registry2 := rinsert registry hashid name
        if registry2.any (fun kv => kv.2 == name && kv.1 != hashid) then
          (some (.nameError "already in use for a different simulation"), fs)
        else (none, set_registry m fs registry2)

/-- Outcome of one invocation of the external executable: exit code 0 with
captured stdout and the output file it wrote, or a nonzero exit with
captured stderr, possibly leaving a partial output file behind. -/
inductive ExecOutcome where
  | success (stdoutB : List Nat) (out : Nat)
  | failure (partialOut : Option Nat) (stderrB : List Nat)
deriving DecidableEq, Repr

/-- The black-box executable: a function from the argument vector passed to
`subprocess.run` to the outcome of that run. -/
abbrev ExecBehavior := List String → ExecOutcome

/-- One `print` call: a string, or a bytes object (captured stdout/stderr). -/
inductive PrintItem where
  | pstr (s : String)
  | pbytes (b : List Nat)
deriving DecidableEq, Repr

/-- Result of `Manager.create`: the returned path or raised exception, the
resulting file system, the argument vectors of the executable invocations
made, and the print trace. -/
structure CreateResult where
  result : Except Exn String
  fs : FS
  calls : List (List String)
  prints : List PrintItem
deriving Repr

/-- Python `s[0:k]`. -/
def strTake (s : String) (k : Nat) : String := String.mk (s.data.take k)

/-- Python `s[-k:]`. -/
def strLast (s : String) (k : Nat) : String :=
  String.mk (s.data.drop (s.data.length - k))

/-- Step 3 of `create`: write the input file, unless it is already present
(`if not os.path.isfile(self.jsonfile(js)): json.dump(js, f, ...)`). -/
def inputWritten (m : Manager) (fs : FS) (js : Record) : FS :=
  if fsIsFile fs (jsonfile m fs js) then fs
  else fsWrite fs (jsonfile m fs js) (.jsonF js)

/-- The `print`ed status line of a cache miss in `create`. -/
def runMsg (m : Manager) (fs : FS) (js : Record) (n : Nat) : PrintItem :=
  .pstr ("Running simulation " ++ strTake (hashinput js) 6 ++ "..." ++
    strLast (outfile m fs js n) 9)

/-- `Manager.create`, translated statement by statement from the source. -/
def create (m : Manager) (exec : ExecBehavior) (fs : FS) (js : Record) (n : Nat)
    (name : String) (error stdout : String) : CreateResult :=
  let hashid := hashinput js
  let reg := if name != "" then register m fs js name else (none, fs)
  match reg.1 with
  | some e => ⟨.error e, reg.2, [], []⟩
  | none =>
    let fs1 := reg.2
    let ncfile := outfile m fs1 js n
    if fsIsFile fs1 ncfile then
      ⟨.ok ncfile, fs1, [],
        [.pstr ("Existing simulation " ++ strTake hashid 6 ++ "..." ++ strLast ncfile 9)]⟩
    else
      let p0 : PrintItem := runMsg m fs1 js n
      let fs2 := inputWritten m fs1 js
      let args := if n == 0 then [m.executable, jsonfile m fs2 js, ncfile]
        else [m.executable, jsonfile m fs2 js, ncfile, outfile m fs2 js (n - 1)]
      match exec args with
      | .success stdoutB out =>
        ⟨.ok ncfile, fsWrite fs2 ncfile (.outF out), [args],
          [p0] ++ (if stdout == "display" then [.pbytes stdoutB] else [])⟩
      | .failure partialOut stderrB =>
        let fs3 := match partialOut with
          | some o => fsWrite fs2 ncfile (.outF o)
          | none => fs2
        let fs4 := if fsIsFile fs3 ncfile then fsRemove fs3 ncfile else fs3
        let fs5 := if n == 0 then fsRemove fs4 (jsonfile m fs4 js) else fs4
        if error == "display" then ⟨.ok ncfile, fs5, [args], [p0, .pbytes stderrB]⟩
        else if error == "raise" then ⟨.error (.cpe stderrB), fs5, [args], [p0]⟩
        else ⟨.ok ncfile, fs5, [args], [p0]⟩

/-- `Manager.exists`: existence of the output file for `(js, n)`. -/
def existsFile (m : Manager) (fs : FS) (js : Record) (n : Nat) : Bool :=
  fsIsFile fs (outfile m fs js n)

/-- The `while self.exists(js, number): number += 1` loop of `Manager.count`.
The fuel only bounds the iteration count; `count` supplies `fs.length + 1`,
which is enough because distinct indices resolve to distinct paths. -/
def countAux (m : Manager) (fs : FS) (js : Record) : Nat → Nat → Nat
  | 0, acc => acc
  | fuel + 1, acc =>
    if existsFile m fs js acc then countAux m fs js fuel (acc + 1) else acc

/-- `Manager.count`: number of contiguous existing outputs starting at 0. -/
def count (m : Manager) (fs : FS) (js : Record) : Nat :=
  countAux m fs js (fs.length + 1) 0

/-- `os.remove(p)` in state-passing style: remove the file, or raise
`FileNotFoundError` — leaving the state unchanged — when `p` does not
exist. -/
def osRemove (fs : FS) (p : String) : Option Exn × FS :=
  if fsIsFile fs p then (none, fsRemove fs p) else (some (.fileNotFound p), fs)

/-- `Manager.delete`, in state-passing style: remove the output for index
`n` if it exists; for `n == 0` additionally remove the input file and the
registered name.  The source's second `os.remove(self.jsonfile(js))` is
unguarded: when the input file is missing it raises `FileNotFoundError`
after the output has already been removed, and the registry is never
touched. -/
def delete (m : Manager) (fs : FS) (js : Record) (n : Nat) : Option Exn × FS :=
  let ncfile := outfile m fs js n
  if fsIsFile fs ncfile then
    let fs1 := fsRemove fs ncfile
    if n == 0 then
      let rm := osRemove fs1 (jsonfile m fs1 js)
      match rm.1 with
      | some e => (some e, rm.2)
      | none =>
        let fs2 := rm.2
        let registry := get_registry m fs2
        let hashid := hashinput js
        let registry2 := if (rlookup registry hashid).isSome then rerase registry hashid
          else registry
        (none, set_registry m fs2 registry2)
    else (none, fs1)
  else (none, fs)

/-- `os.listdir(directory)`: the base names of the entries of the managed
directory (the Manager keeps it flat). -/
def listdir (m : Manager) (fs : FS) : List String :=
  let pre := (m.directory ++ "/").data
  fs.filterMap (fun e =>
    if e.1.data.take pre.length == pre then some (String.mk (e.1.data.drop pre.length))
    else none)

/-- Python `s.endswith(suffix)`, decided on the character lists. -/
def strEndsWith (s suf : String) : Bool :=
  s.data.drop (s.data.length - suf.data.length) == suf.data

/-- Result of `json.load` on abstract file contents: input records load as
themselves, the registry file loads as a string-valued object, opaque
output blobs fail to parse. -/
def loadRecord : FData → Option Record
  | .jsonF v => some v
  | .regF r => some (r.map (fun kv => (kv.1, Jval.jstr kv.2)))
  | .outF _ => none

/-- One row of `Manager.files()`. -/
structure FileEntry where
  id : String
  n : Nat
  inputfile : String
  outputfile : String
deriving DecidableEq, Repr

/-- Lexicographic `(id, n)` order used by `sorted(..., itemgetter("id", "n"))`. -/
def entryLe (a b : FileEntry) : Bool :=
  a.id < b.id || (a.id == b.id && a.n ≤ b.n)

/-- `Manager.files()`: scan the directory for input files (names ending in
`.json` but not `out.json`), load each, and emit one row per contiguous
restart index; a file that fails to parse raises (modeled as `.error`). -/
def files (m : Manager) (fs : FS) : Except String (List FileEntry) :=
  let step := fun (acc : Except String (List FileEntry)) (filename : String) =>
    match acc with
    | .error e => .error e
    | .ok table =>
      if strEndsWith filename ".json" && !(strEndsWith filename "out.json") then
        match (fsGet fs (pjoin m.directory filename)).bind loadRecord with
        | none => .error "json.load failed"
        | some js =>
          let number := count m fs js
          .ok (table ++ (List.range number).map (fun n =>
            { id := (rlookup (get_registry m fs) (hashinput js)).getD (hashinput js)
              n := n
              inputfile := jsonfile m fs js
              outputfile := outfile m fs js n }))
      else .ok table
  match (listdir m fs).foldl step (.ok []) with
  | .error e => .error e
  | .ok t => .ok (sortBy entryLe t)

/-- `Manager.table()`: the parsed input of chain index 0 of every entry. -/
def table (m : Manager) (fs : FS) : Except String (List Record) :=
  match files m fs with
  | .error e => .error e
  | .ok fl =>
    fl.foldl
      (fun acc d =>
        match acc with
        | .error e => .error e
        | .ok t =>
          match (fsGet fs d.inputfile).bind loadRecord with
          | none => .error "json.load failed"
          | some js => if d.n == 0 then .ok (t ++ [js]) else .ok t)
      (.ok [])

/-- `Manager.delete_all()`: remove every file pair reported by `files()` and
clear the registry.  (`os.rmdir` of the directory itself is outside the
file model.) -/
def delete_all (m : Manager) (fs : FS) : Except String FS :=
  match files m fs with
  | .error e => .error e
  | .ok fl =>
    let fs1 := fl.foldl
      (fun fs e =>
        let fs' := if e.n == 0 then fsRemove fs e.inputfile else fs
        fsRemove fs' e.outputfile)
      fs
    .ok (set_registry m fs1 [])

/-! ## Derived descriptions used in statements and proofs -/

/-- The argument vector `create` passes to `subprocess.run` on a cache miss,
expressed over the pre-state (the registry is untouched by the miss flow). -/
def argsFor (m : Manager) (fs : FS) (js : Record) (n : Nat) : List String :=
  if n == 0 then [m.executable, jsonfile m fs js, outfile m fs js n]
  else [m.executable, jsonfile m fs js, outfile m fs js n, outfile m fs js (n - 1)]

/-- The file system after the failure cleanup of `create` (output removed,
input removed exactly when `n == 0`), over the pre-state. -/
def cleanedFS (m : Manager) (fs : FS) (js : Record) (n : Nat) : FS :=
  let fs4 := fsRemove (inputWritten m fs js) (outfile m fs js n)
  if n == 0 then fsRemove fs4 (jsonfile m fs js) else fs4

/-- The sixteen lowercase hexadecimal digit characters. -/
def hexCharset : List Char := "0123456789abcdef".data

/-- Output path formula as worded by the spec (for the refinement claim C8):
a pure function of the directory, the resolved display name, the output
extension and the restart index; index 0 unsuffixed, `n > 0` suffixed with
`0x` plus hex digits, extension `json` disambiguated with `_out`. -/
def specOutfile (dir name ext : String) (n : Nat) : String :=
  let stem := if n = 0 then name else name ++ "0x" ++ String.mk (hexDigits n)
  if ext = "json" then pjoin dir (stem ++ "_out" ++ ".json")
  else pjoin dir (stem ++ "." ++ ext)

/-- All five SHA-1 state words are reduced modulo 2^32. -/
def Bounded32 (h : Nat × Nat × Nat × Nat × Nat) : Prop :=
  h.1 < M32 ∧ h.2.1 < M32 ∧ h.2.2.1 < M32 ∧ h.2.2.2.1 < M32 ∧ h.2.2.2.2 < M32

/-- The 160-bit number encoded by the five digest words (Horner form). -/
def digestNat (h : Nat × Nat × Nat × Nat × Nat) : Nat :=
  (((h.1 * M32 + h.2.1) * M32 + h.2.2.1) * M32 + h.2.2.2.1) * M32 + h.2.2.2.2

/-- A family of records with pairwise distinct canonical serializations
(the value is a string of `k` letters `a`), used for the pigeonhole
argument that SHA-1 cannot be injective on records. -/
def c3f (k : Nat) : Record := [("a", Jval.jstr (String.mk (List.replicate k 'a')))]

/-! ## Concrete fixtures for witnesses and counterexamples -/

/-- A concrete Manager configuration (the source's defaults). -/
def mC : Manager := ⟨"./data", "nc", "./execute.sh"⟩

/-- A concrete input record. -/
def jsC : Record := [("a", Jval.jint 10)]

/-- A concrete Manager whose output extension equals the input extension. -/
def mCj : Manager := ⟨"./data", "json", "./execute.sh"⟩

/-- An executable behavior that always succeeds. -/
def execOkC : ExecBehavior := fun _ => ExecOutcome.success [3] 7

/-- An executable behavior that always fails without leaving an output. -/
def execFailC : ExecBehavior := fun _ => ExecOutcome.failure none [9]

/-- The hash of the concrete record `jsC`. -/
def hC : String := hashinput jsC

/-- A file system holding a two-member restart chain for `jsC` plus its
input file. -/
def fsChainC : FS :=
  [(pjoin "./data" (hC ++ ".json"), FData.jsonF jsC),
   (pjoin "./data" (hC ++ ".nc"), FData.outF 0),
   (pjoin "./data" (hC ++ "0x1.nc"), FData.outF 1)]

/-- A file system where `jsC` has an input file and a registered name but
no output file. -/
def fsC9 : FS :=
  [(pjoin "./data" "myname.json", FData.jsonF jsC),
   (pjoin "./data" "simplesimdb.json", FData.regF [(hC, "myname")])]

/-- A file system where `jsC` is registered as `zz` and its index-0 output
exists, but its input file `zz.json` is absent — the state on which the
unguarded input removal of `delete` raises. -/
def fsC6cx : FS :=
  [(pjoin "./data" "zz.nc", FData.outF 0),
   (pjoin "./data" "simplesimdb.json", FData.regF [(hC, "zz")])]

/-- A record whose registered display name will end in `out`. -/
def jsF : Record := [("f", Jval.jint 1)]

/-- The hash of `jsF`. -/
def hF : String := hashinput jsF

/-- A file system where `jsF` is registered as `fallout`, so its input file
is `fallout.json` and its index-0 output `fallout.nc`, both present. -/
def fsC10 : FS :=
  [(pjoin "./data" "fallout.json", FData.jsonF jsF),
   (pjoin "./data" "fallout.nc", FData.outF 1),
   (pjoin "./data" "simplesimdb.json", FData.regF [(hF, "fallout")])]

/-! ## Lemmas: hexadecimal rendering -/

theorem hexVal_digitChar : ∀ n < 16, hexVal (Nat.digitChar n) = n := by decide

theorem digitChar_mem_hexCharset : ∀ n < 16, Nat.digitChar n ∈ hexCharset := by decide

theorem natOfHex_one (c : Char) : natOfHex [c] = hexVal c := by
  simp [natOfHex]

theorem natOfHex_append (l : List Char) (c : Char) :
    natOfHex (l ++ [c]) = natOfHex l * 16 + hexVal c := by
  simp [natOfHex]

theorem natOfHex_hexDigitsAux :
    ∀ fuel n, n < 16 ^ (fuel + 1) → natOfHex (hexDigitsAux fuel n) = n := by
  intro fuel
  induction fuel with
  | zero =>
    intro n hn
    rw [pow_one] at hn
    rw [hexDigitsAux, natOfHex_one, hexVal_digitChar n hn]
  | succ fuel ih =>
    intro n hn
    by_cases h16 : n < 16
    · rw [hexDigitsAux, if_pos h16, natOfHex_one, hexVal_digitChar n h16]
    · have hdiv : n / 16 < 16 ^ (fuel + 1) := by
        rw [Nat.div_lt_iff_lt_mul (by norm_num)]
        calc n < 16 ^ (fuel + 1 + 1) := hn
          _ = 16 ^ (fuel + 1) * 16 := by ring
      have hm : n % 16 < 16 := Nat.mod_lt _ (by norm_num)
      rw [hexDigitsAux, if_neg h16, natOfHex_append, ih _ hdiv, hexVal_digitChar _ hm]
      omega

theorem lt_sixteen_pow (n : Nat) : n < 16 ^ (n + 1) :=
  calc n < 2 ^ n := Nat.lt_two_pow n
    _ ≤ 16 ^ n := Nat.pow_le_pow_left (by norm_num) n
    _ ≤ 16 ^ (n + 1) := Nat.pow_le_pow_right (by norm_num) (by omega)

theorem natOfHex_hexDigits (n : Nat) : natOfHex (hexDigits n) = n :=
  natOfHex_hexDigitsAux n n (lt_sixteen_pow n)

theorem hexDigits_inj {a b : Nat} (h : hexDigits a = hexDigits b) : a = b := by
  have ha := natOfHex_hexDigits a
  rw [h, natOfHex_hexDigits] at ha
  omega

theorem hexDigitsAux_length :
    ∀ fuel n k, n < 16 ^ (k + 1) → (hexDigitsAux fuel n).length ≤ k + 1 := by
  intro fuel
  induction fuel with
  | zero => intro n k _; simp [hexDigitsAux]
  | succ fuel ih =>
    intro n k hn
    by_cases h16 : n < 16
    · simp [hexDigitsAux, h16]
    · have hk : k ≠ 0 := by
        rintro rfl
        rw [pow_one] at hn
        exact h16 hn
      obtain ⟨k', rfl⟩ := Nat.exists_eq_succ_of_ne_zero hk
      have hdiv : n / 16 < 16 ^ (k' + 1) := by
        rw [Nat.div_lt_iff_lt_mul (by norm_num)]
        calc n < 16 ^ (k' + 1 + 1) := hn
          _ = 16 ^ (k' + 1) * 16 := by ring
      have := ih (n / 16) k' hdiv
      simp only [hexDigitsAux, if_neg h16, List.length_append, List.length_cons,
        List.length_nil]
      omega

theorem hexDigitsAux_mem :
    ∀ fuel n, n < 16 ^ (fuel + 1) → ∀ c ∈ hexDigitsAux fuel n, c ∈ hexCharset := by
  intro fuel
  induction fuel with
  | zero =>
    intro n hn c hc
    rw [pow_one] at hn
    rw [hexDigitsAux, List.mem_singleton] at hc
    exact hc ▸ digitChar_mem_hexCharset n hn
  | succ fuel ih =>
    intro n hn c hc
    by_cases h16 : n < 16
    · rw [hexDigitsAux, if_pos h16, List.mem_singleton] at hc
      exact hc ▸ digitChar_mem_hexCharset n h16
    · have hdiv : n / 16 < 16 ^ (fuel + 1) := by
        rw [Nat.div_lt_iff_lt_mul (by norm_num)]
        calc n < 16 ^ (fuel + 1 + 1) := hn
          _ = 16 ^ (fuel + 1) * 16 := by ring
      rw [hexDigitsAux, if_neg h16, List.mem_append, List.mem_singleton] at hc
      rcases hc with hc | hc
      · exact ih _ hdiv c hc
      · exact hc ▸ digitChar_mem_hexCharset _ (Nat.mod_lt _ (by norm_num))

theorem hexDigits_mem (n : Nat) : ∀ c ∈ hexDigits n, c ∈ hexCharset :=
  hexDigitsAux_mem n n (lt_sixteen_pow n)

theorem hexDigits_length_le8 {w : Nat} (hw : w < M32) : (hexDigits w).length ≤ 8 :=
  hexDigitsAux_length w w 7 (by
    have : M32 = 16 ^ 8 := by norm_num [M32]
    omega)

theorem hex8_length {w : Nat} (hw : w < M32) : (hex8 w).length = 8 := by
  have := hexDigits_length_le8 hw
  simp only [hex8, List.length_append, List.length_replicate]
  omega

theorem pyHex_inj {a b : Nat} (h : pyHex a = pyHex b) : a = b := by
  have hd := congrArg String.data h
  simp only [pyHex, String.data_append] at hd
  have : hexDigits a = hexDigits b := by
    have := List.append_cancel_left hd
    simpa using this
  exact hexDigits_inj this

/-! ## Lemmas: the file-system model -/

theorem strData_inj {a b : String} (h : a.data = b.data) : a = b := by
  cases a; cases b; exact congrArg String.mk h

theorem strcat_left_cancel {s a b : String} (h : s ++ a = s ++ b) : a = b := by
  have hd := congrArg String.data h
  simp only [String.data_append] at hd
  exact strData_inj (List.append_cancel_left hd)

theorem strcat_right_cancel {a b s : String} (h : a ++ s = b ++ s) : a = b := by
  have hd := congrArg String.data h
  simp only [String.data_append] at hd
  exact strData_inj (List.append_cancel_right hd)

theorem pjoin_inj {d a b : String} (h : pjoin d a = pjoin d b) : a = b :=
  strcat_left_cancel (s := d ++ "/") h

theorem find?_fsRemove_ne (fs : FS) (p q : String) (h : q ≠ p) :
    (fsRemove fs p).find? (fun e => e.1 == q) = fs.find? (fun e => e.1 == q) := by
  induction fs with
  | nil => rfl
  | cons e t ih =>
    by_cases hep : e.1 = p
    · have h1 : (e.1 != p) = false := by simp [hep]
      have h2 : (e.1 == q) = false := by
        apply beq_eq_false_iff_ne.mpr
        intro hq
        exact h (hq.symm.trans hep)
      simp only [fsRemove, List.filter_cons, h1, Bool.false_eq_true, if_false,
        List.find?_cons, h2, cond_false]
      exact ih
    · have h1 : (e.1 != p) = true := by simp [hep]
      simp only [fsRemove, List.filter_cons, h1, if_true, List.find?_cons]
      cases h2 : (e.1 == q) with
      | false => simp only [cond_false]; exact ih
      | true => simp only [cond_true]

theorem fsGet_remove_ne (fs : FS) (p q : String) (h : q ≠ p) :
    fsGet (fsRemove fs p) q = fsGet fs q := by
  simp [fsGet, find?_fsRemove_ne fs p q h]

theorem fsGet_remove_self (fs : FS) (p : String) : fsGet (fsRemove fs p) p = none := by
  induction fs with
  | nil => rfl
  | cons e t ih =>
    by_cases hep : e.1 = p
    · have h1 : (e.1 != p) = false := by simp [hep]
      simp only [fsRemove, List.filter_cons, h1, Bool.false_eq_true, if_false]
      exact ih
    · have h1 : (e.1 != p) = true := by simp [hep]
      have h2 : (e.1 == p) = false := by simp [hep]
      simp only [fsRemove, fsGet, List.filter_cons, h1, if_true, List.find?_cons, h2,
        cond_false] at ih ⊢
      exact ih

theorem fsGet_write_self (fs : FS) (p : String) (d : FData) :
    fsGet (fsWrite fs p d) p = some d := by
  simp [fsGet, fsWrite, List.find?_cons]

theorem fsGet_write_ne (fs : FS) (p : String) (d : FData) (q : String) (h : q ≠ p) :
    fsGet (fsWrite fs p d) q = fsGet fs q := by
  have h2 : (p == q) = false := by
    simp only [beq_eq_false_iff_ne, ne_eq]
    exact fun hq => h hq.symm
  simp only [fsGet, fsWrite, List.find?_cons, h2, cond_false]
  exact congrArg (Option.map _) (find?_fsRemove_ne fs p q h)

theorem fsRemove_absent (fs : FS) (p : String) (h : fsGet fs p = none) :
    fsRemove fs p = fs := by
  induction fs with
  | nil => rfl
  | cons e t ih =>
    by_cases hep : e.1 = p
    · simp [fsGet, List.find?_cons, hep] at h
    · have h1 : (e.1 != p) = true := by simp [hep]
      have h2 : (e.1 == p) = false := by simp [hep]
      simp only [fsGet, List.find?_cons, h2, cond_false] at h
      simp [fsRemove, List.filter_cons, h1] at ih ⊢
      exact ih h

theorem fsRemove_idem (fs : FS) (p : String) :
    fsRemove (fsRemove fs p) p = fsRemove fs p :=
  fsRemove_absent _ _ (fsGet_remove_self fs p)

theorem fsRemove_write_self (fs : FS) (p : String) (d : FData) :
    fsRemove (fsWrite fs p d) p = fsRemove fs p := by
  simp [fsWrite, fsRemove, List.filter_cons, List.filter_filter]

theorem mem_keys_of_isfile {fs : FS} {p : String} (h : fsIsFile fs p = true) :
    p ∈ fs.map Prod.fst := by
  unfold fsIsFile fsGet at h
  cases hf : fs.find? (fun e => e.1 == p) with
  | none => rw [hf] at h; simp at h
  | some e =>
    have hmem := List.mem_of_find?_eq_some hf
    have hkey := List.find?_some hf
    simp only [beq_iff_eq] at hkey
    exact hkey ▸ List.mem_map_of_mem Prod.fst hmem

/-! ## Lemmas: registry stability and path congruence -/

theorem get_registry_write_ne {m : Manager} {p : String} (fs : FS) (d : FData)
    (h : p ≠ regPath m) : get_registry m (fsWrite fs p d) = get_registry m fs := by
  unfold get_registry
  rw [fsGet_write_ne fs p d (regPath m) (Ne.symm h)]

theorem get_registry_remove_ne {m : Manager} {p : String} (fs : FS)
    (h : p ≠ regPath m) : get_registry m (fsRemove fs p) = get_registry m fs := by
  unfold get_registry
  rw [fsGet_remove_ne fs p (regPath m) (Ne.symm h)]

theorem get_registry_write_nonreg {m : Manager} {p : String} {fs : FS} {d : FData}
    (habs : fsGet fs p = none) (hd : ∀ r, d ≠ .regF r) :
    get_registry m (fsWrite fs p d) = get_registry m fs := by
  by_cases hp : p = regPath m
  · subst hp
    unfold get_registry
    rw [fsGet_write_self, habs]
    cases d with
    | jsonF v => rfl
    | regF r => exact absurd rfl (hd r)
    | outF t => rfl
  · exact get_registry_write_ne fs d hp

theorem resolveName_congr {m : Manager} {fs fs' : FS} (js : Record)
    (h : get_registry m fs' = get_registry m fs) :
    resolveName m fs' js = resolveName m fs js := by
  unfold resolveName
  rw [h]

theorem jsonfile_congr {m : Manager} {fs fs' : FS} (js : Record)
    (h : get_registry m fs' = get_registry m fs) :
    jsonfile m fs' js = jsonfile m fs js := by
  unfold jsonfile
  rw [resolveName_congr js h]

theorem outfile_congr {m : Manager} {fs fs' : FS} (js : Record) (n : Nat)
    (h : get_registry m fs' = get_registry m fs) :
    outfile m fs' js n = outfile m fs js n := by
  unfold outfile
  rw [resolveName_congr js h]

theorem get_registry_inputWritten (m : Manager) (fs : FS) (js : Record) :
    get_registry m (inputWritten m fs js) = get_registry m fs := by
  unfold inputWritten
  split
  · rfl
  · rename_i habs
    rw [Bool.not_eq_true] at habs
    unfold fsIsFile at habs
    have habs' : fsGet fs (jsonfile m fs js) = none := by
      cases hg : fsGet fs (jsonfile m fs js) with
      | none => rfl
      | some d => rw [hg] at habs; simp at habs
    exact get_registry_write_nonreg habs' (fun r => by simp)

theorem jsonfile_inputWritten (m : Manager) (fs : FS) (js : Record) :
    jsonfile m (inputWritten m fs js) js = jsonfile m fs js :=
  jsonfile_congr js (get_registry_inputWritten m fs js)

theorem outfile_inputWritten (m : Manager) (fs : FS) (js : Record) (k : Nat) :
    outfile m (inputWritten m fs js) js k = outfile m fs js k :=
  outfile_congr js k (get_registry_inputWritten m fs js)

theorem fsIsFile_inputWritten_json (m : Manager) (fs : FS) (js : Record) :
    fsIsFile (inputWritten m fs js) (jsonfile m fs js) = true := by
  unfold inputWritten
  split
  · assumption
  · unfold fsIsFile
    rw [fsGet_write_self]
    rfl

theorem fsGet_inputWritten_ne {m : Manager} {fs : FS} {js : Record} {p : String}
    (h : p ≠ jsonfile m fs js) :
    fsGet (inputWritten m fs js) p = fsGet fs p := by
  unfold inputWritten
  split
  · rfl
  · exact fsGet_write_ne fs _ _ p h

/-! ## Lemmas: path structure and disjointness -/

theorem outfile_eq (m : Manager) (fs : FS) (js : Record) (n : Nat) :
    outfile m fs js n =
      pjoin m.directory (resolveName m fs js ++ (if 0 < n then pyHex n else "") ++
        (if m.filetype == "json" then "_out.json" else "." ++ m.filetype)) := by
  simp only [outfile]
  split
  · rfl
  · rw [String.append_assoc]

theorem pyHex_data (n : Nat) : (pyHex n).data = '0' :: 'x' :: hexDigits n := by
  have h0x : ("0x" : String).data = ['0', 'x'] := by decide
  simp [pyHex, String.data_append, h0x]

theorem suffix_inj {a b : Nat}
    (h : (if 0 < a then pyHex a else "") = (if 0 < b then pyHex b else "")) : a = b := by
  rcases Nat.eq_zero_or_pos a with ha | ha <;> rcases Nat.eq_zero_or_pos b with hb | hb
  · omega
  · rw [if_neg (by omega), if_pos hb] at h
    have hd := congrArg String.data h
    rw [pyHex_data] at hd
    simp at hd
  · rw [if_pos ha, if_neg (by omega)] at h
    have hd := congrArg String.data h
    rw [pyHex_data] at hd
    simp at hd
  · rw [if_pos ha, if_pos hb] at h
    exact pyHex_inj h

theorem outfile_inj {m : Manager} {fs : FS} {js : Record} {a b : Nat}
    (h : outfile m fs js a = outfile m fs js b) : a = b := by
  rw [outfile_eq, outfile_eq] at h
  have h2 := pjoin_inj h
  have h3 := strcat_right_cancel h2
  exact suffix_inj (strcat_left_cancel h3)

theorem dot_split {a ft : List Char} (h : a ++ '.' :: ft = "simplesimdb.json".data) :
    a = "simplesimdb".data ∧ ft = "json".data := by
  have hlen : a.length + (ft.length + 1) = 16 := by
    have hl := congrArg List.length h
    simp at hl
    omega
  have htake : a = ("simplesimdb.json".data).take a.length := by
    have ht := congrArg (List.take a.length) h
    rwa [List.take_left] at ht
  have hdrop : '.' :: ft = ("simplesimdb.json".data).drop a.length := by
    have hd := congrArg (List.drop a.length) h
    rwa [List.drop_left] at hd
  obtain ⟨k, hk⟩ : ∃ k, a.length = k := ⟨a.length, rfl⟩
  rw [hk] at htake hdrop
  have hle : k ≤ 15 := by omega
  interval_cases k <;>
    first
      | (have h' : _ = some '.' := (congrArg List.head? hdrop).symm
         exact absurd h' (by decide))
      | (refine ⟨by rw [htake]; decide, ?_⟩
         have hdj : ("simplesimdb.json".data).drop 11 = '.' :: "json".data := by decide
         rw [hdj] at hdrop
         exact ((List.cons.injEq _ _ _ _).mp hdrop.symm).2.symm)

theorem outfile_ne_jsonfile (m : Manager) (fs : FS) (js : Record) (n : Nat) :
    outfile m fs js n ≠ jsonfile m fs js := by
  rw [outfile_eq]
  unfold jsonfile
  intro h
  have h2 := pjoin_inj h
  by_cases hn : 0 < n
  · rw [if_pos hn] at h2
    have hd := congrArg String.data h2
    simp only [String.data_append, pyHex_data] at hd
    rw [List.append_assoc] at hd
    have h3 := List.append_cancel_left hd
    have h' : _ = some '0' := (congrArg List.head? h3).symm
    exact absurd h' (by decide)
  · rw [if_neg hn] at h2
    by_cases hft : (m.filetype == "json") = true
    · rw [if_pos hft] at h2
      have hd := congrArg String.data h2
      simp only [String.data_append,
        show ("" : String).data = ([] : List Char) from rfl, List.append_nil] at hd
      have h3 := List.append_cancel_left hd
      exact absurd h3 (by decide)
    · rw [if_neg hft] at h2
      have hd := congrArg String.data h2
      simp only [String.data_append,
        show ("" : String).data = ([] : List Char) from rfl, List.append_nil,
        List.append_assoc, List.singleton_append] at hd
      have h3 := List.append_cancel_left hd
      have h4 : m.filetype.data = ['j', 's', 'o', 'n'] :=
        ((List.cons.injEq _ _ _ _).mp h3).2
      have hft2 : m.filetype = "json" :=
        strData_inj (h4.trans (by decide))
      simp [hft2] at hft

theorem outfile_ne_regPath (m : Manager) (fs : FS) (js : Record) (n : Nat) :
    outfile m fs js n ≠ regPath m := by
  rw [outfile_eq]
  unfold regPath
  intro h
  have h2 := pjoin_inj h
  by_cases hn : 0 < n
  · rw [if_pos hn] at h2
    have hd := congrArg String.data h2
    simp only [String.data_append, pyHex_data] at hd
    have hmem : '0' ∈ ((resolveName m fs js).data ++ '0' :: 'x' :: hexDigits n) ++
        (if m.filetype == "json" then ("_out.json" : String)
          else "." ++ m.filetype).data := by
      simp
    rw [hd] at hmem
    exact absurd hmem (by decide)
  · rw [if_neg hn] at h2
    by_cases hft : (m.filetype == "json") = true
    · rw [if_pos hft] at h2
      have hd := congrArg String.data h2
      simp only [String.data_append,
        show ("" : String).data = ([] : List Char) from rfl, List.append_nil] at hd
      have hl := congrArg List.length hd
      simp only [List.length_append] at hl
      rw [show (("_out.json" : String).data).length = 9 from by decide,
        show (("simplesimdb.json" : String).data).length = 16 from by decide] at hl
      have h7 : (resolveName m fs js).data.length = 7 := by omega
      have hdrop := congrArg (List.drop (resolveName m fs js).data.length) hd
      rw [List.drop_left] at hdrop
      rw [h7] at hdrop
      exact absurd hdrop (by decide)
    · rw [if_neg hft] at h2
      have hd := congrArg String.data h2
      simp only [String.data_append,
        show ("" : String).data = ([] : List Char) from rfl, List.append_nil,
        List.append_assoc, List.singleton_append] at hd
      obtain ⟨-, hftj⟩ := dot_split hd
      have hft2 : m.filetype = "json" := strData_inj hftj
      simp [hft2] at hft

/-! ## Lemmas: the count loop -/

theorem countAux_exists_below (m : Manager) (fs : FS) (js : Record) :
    ∀ fuel acc k, acc ≤ k → k < countAux m fs js fuel acc →
      existsFile m fs js k = true := by
  intro fuel
  induction fuel with
  | zero =>
    intro acc k hak hk
    simp only [countAux] at hk
    omega
  | succ fuel ih =>
    intro acc k hak hk
    simp only [countAux] at hk
    by_cases hacc : existsFile m fs js acc = true
    · rw [if_pos hacc] at hk
      by_cases hka : k = acc
      · exact hka ▸ hacc
      · exact ih (acc + 1) k (by omega) hk
    · rw [if_neg hacc] at hk
      omega

theorem countAux_le (m : Manager) (fs : FS) (js : Record) :
    ∀ fuel acc j, acc ≤ j → existsFile m fs js j = false →
      countAux m fs js fuel acc ≤ j := by
  intro fuel
  induction fuel with
  | zero =>
    intro acc j haj hj
    simp only [countAux]
    omega
  | succ fuel ih =>
    intro acc j haj hj
    simp only [countAux]
    by_cases hacc : existsFile m fs js acc = true
    · rw [if_pos hacc]
      have hne : j ≠ acc := by
        intro he
        rw [he, hacc] at hj
        exact absurd hj (by simp)
      exact ih (acc + 1) j (by omega) hj
    · rw [if_neg hacc]
      omega

theorem countAux_stops (m : Manager) (fs : FS) (js : Record) :
    ∀ fuel acc, (∃ j, acc ≤ j ∧ j < acc + fuel ∧ existsFile m fs js j = false) →
      existsFile m fs js (countAux m fs js fuel acc) = false := by
  intro fuel
  induction fuel with
  | zero =>
    rintro acc ⟨j, h1, h2, h3⟩
    omega
  | succ fuel ih =>
    rintro acc ⟨j, h1, h2, h3⟩
    simp only [countAux]
    by_cases hacc : existsFile m fs js acc = true
    · rw [if_pos hacc]
      refine ih (acc + 1) ⟨j, ?_, by omega, h3⟩
      have hne : j ≠ acc := by
        intro he
        rw [he, hacc] at h3
        exact absurd h3 (by simp)
      omega
    · rw [if_neg hacc]
      rw [Bool.not_eq_true] at hacc
      exact hacc

theorem exists_gap (m : Manager) (fs : FS) (js : Record) :
    ∃ j, j ≤ fs.length ∧ existsFile m fs js j = false := by
  by_contra hno
  push_neg at hno
  have hall : ∀ j, j ≤ fs.length → existsFile m fs js j = true := by
    intro j hj
    cases hx : existsFile m fs js j
    · exact absurd hx (hno j hj)
    · rfl
  have hinj : Function.Injective (fun k => outfile m fs js k) := by
    intro x y hxy
    exact outfile_inj hxy
  have hnd : ((List.range (fs.length + 1)).map (fun k => outfile m fs js k)).Nodup :=
    (List.nodup_range _).map hinj
  have hsub : ∀ p ∈ (List.range (fs.length + 1)).map (fun k => outfile m fs js k),
      p ∈ fs.map Prod.fst := by
    intro p hp
    simp only [List.mem_map, List.mem_range] at hp
    obtain ⟨k, hk, rfl⟩ := hp
    exact mem_keys_of_isfile (hall k (by omega))
  have hlen := (List.subperm_of_subset hnd hsub).length_le
  simp only [List.length_map, List.length_range] at hlen
  omega

/-! ## Lemmas: the registry mapping and set_registry -/

theorem fsGet_set_registry_ne {m : Manager} {p : String} (fs : FS)
    (r : List (String × String)) (h : p ≠ regPath m) :
    fsGet (set_registry m fs r) p = fsGet fs p := by
  unfold set_registry
  split
  · rw [fsGet_remove_ne _ _ _ h, fsGet_write_ne _ _ _ _ h]
  · rw [fsGet_write_ne _ _ _ _ h]

theorem rlookup_rerase (r : List (String × String)) (k : String) :
    rlookup (rerase r k) k = none := by
  induction r with
  | nil => rfl
  | cons e t ih =>
    by_cases hek : e.1 = k
    · have h1 : (e.1 != k) = false := by simp [hek]
      simp only [rerase, List.filter_cons, h1, Bool.false_eq_true, if_false]
      exact ih
    · have h1 : (e.1 != k) = true := by simp [hek]
      have h2 : (e.1 == k) = false := by simp [hek]
      simp only [rerase, rlookup, List.filter_cons, h1, if_true, List.find?_cons, h2,
        cond_false] at ih ⊢
      exact ih

theorem rlookup_append_single (r : List (String × String)) (k v : String)
    (h : rlookup r k = none) : rlookup (r ++ [(k, v)]) k = some v := by
  induction r with
  | nil => simp [rlookup]
  | cons e t ih =>
    by_cases hek : e.1 = k
    · simp [rlookup, List.find?_cons, hek] at h
    · have h2 : (e.1 == k) = false := by simp [hek]
      simp only [rlookup, List.find?_cons, h2, cond_false] at h ⊢
      simp only [List.cons_append, List.find?_cons, h2, cond_false]
      exact ih h

/-! ## Lemmas: stable insertion sort (canonical key order of the serializer) -/

theorem insortBy_perm (le : α → α → Bool) (x : α) (l : List α) :
    List.Perm (insortBy le x l) (x :: l) := by
  induction l with
  | nil => exact List.Perm.refl _
  | cons y ys ih =>
    simp only [insortBy]
    split
    · exact List.Perm.refl _
    · exact (List.Perm.cons y ih).trans (List.Perm.swap x y ys)

theorem sortBy_perm (le : α → α → Bool) (l : List α) :
    List.Perm (sortBy le l) l := by
  induction l with
  | nil => exact List.Perm.refl _
  | cons x xs ih =>
    exact (insortBy_perm le x (sortBy le xs)).trans (List.Perm.cons x ih)

theorem insortBy_pairwise {le : α → α → Bool}
    (htrans : ∀ a b c, le a b = true → le b c = true → le a c = true)
    (htot : ∀ a b, le a b = true ∨ le b a = true) (x : α) :
    ∀ l, l.Pairwise (fun a b => le a b = true) →
      (insortBy le x l).Pairwise (fun a b => le a b = true) := by
  intro l
  induction l with
  | nil =>
    intro _
    simp [insortBy]
  | cons y ys ih =>
    intro h
    rw [List.pairwise_cons] at h
    simp only [insortBy]
    split
    · rename_i hxy
      rw [List.pairwise_cons]
      refine ⟨?_, List.pairwise_cons.mpr h⟩
      intro b hb
      rcases List.mem_cons.mp hb with rfl | hb2
      · exact hxy
      · exact htrans x y b hxy (h.1 b hb2)
    · rename_i hxy
      rw [List.pairwise_cons]
      refine ⟨?_, ih h.2⟩
      intro b hb
      have hmem := (insortBy_perm le x ys).mem_iff.mp hb
      rcases List.mem_cons.mp hmem with rfl | hb2
      · rcases htot y b with h' | h'
        · exact h'
        · exact absurd h' hxy
      · exact h.1 b hb2

theorem sortBy_pairwise {le : α → α → Bool}
    (htrans : ∀ a b c, le a b = true → le b c = true → le a c = true)
    (htot : ∀ a b, le a b = true ∨ le b a = true) :
    ∀ l : List α, (sortBy le l).Pairwise (fun a b => le a b = true) := by
  intro l
  induction l with
  | nil => exact List.Pairwise.nil
  | cons x xs ih => exact insortBy_pairwise htrans htot x _ ih

theorem keyLe_trans (a b c : String × Jval) (h1 : keyLe a b = true)
    (h2 : keyLe b c = true) : keyLe a c = true := by
  unfold keyLe at h1 h2 ⊢
  exact decide_eq_true (le_trans (of_decide_eq_true h1) (of_decide_eq_true h2))

theorem keyLe_total (a b : String × Jval) : keyLe a b = true ∨ keyLe b a = true := by
  unfold keyLe
  rcases le_total a.1 b.1 with h | h
  · exact Or.inl (decide_eq_true h)
  · exact Or.inr (decide_eq_true h)

theorem sorted_perm_eq :
    ∀ l₁ l₂ : Record, List.Perm l₁ l₂ → (l₁.map Prod.fst).Nodup →
      l₁.Pairwise (fun a b => keyLe a b = true) →
      l₂.Pairwise (fun a b => keyLe a b = true) → l₁ = l₂ := by
  intro l₁
  induction l₁ with
  | nil =>
    intro l₂ hp _ _ _
    exact hp.nil_eq
  | cons a t₁ ih =>
    intro l₂ hp hnd hs₁ hs₂
    cases l₂ with
    | nil =>
      have := hp.length_eq
      simp at this
    | cons b t₂ =>
      rw [List.pairwise_cons] at hs₁ hs₂
      have hnd₂ : (((b :: t₂).map Prod.fst)).Nodup :=
        ((hp.map Prod.fst).nodup_iff).mp hnd
      have hamem : a ∈ b :: t₂ := hp.mem_iff.mp (List.mem_cons_self a t₁)
      have hab : a = b := by
        rcases List.mem_cons.mp hamem with h | hat₂
        · exact h
        · have hbmem : b ∈ a :: t₁ := hp.symm.mem_iff.mp (List.mem_cons_self b t₂)
          rcases List.mem_cons.mp hbmem with h | hbt₁
          · exact h.symm
          · have h1 : keyLe a b = true := hs₁.1 b hbt₁
            have h2 : keyLe b a = true := hs₂.1 a hat₂
            have hkey : a.1 = b.1 :=
              le_antisymm (of_decide_eq_true h1) (of_decide_eq_true h2)
            rw [List.map_cons, List.nodup_cons] at hnd₂
            exact absurd (hkey ▸ List.mem_map_of_mem Prod.fst hat₂) hnd₂.1
      subst hab
      have ht : t₁ = t₂ := by
        refine ih t₂ hp.cons_inv ?_ hs₁.2 hs₂.2
        rw [List.map_cons, List.nodup_cons] at hnd
        exact hnd.2
      rw [ht]

theorem sortEntries_perm_eq {r1 r2 : Record} (hp : List.Perm r1 r2)
    (hnd : (r1.map Prod.fst).Nodup) : sortEntries r1 = sortEntries r2 := by
  refine sorted_perm_eq _ _ ?_ ?_ ?_ ?_
  · exact ((sortBy_perm keyLe r1).trans hp).trans (sortBy_perm keyLe r2).symm
  · exact (((sortBy_perm keyLe r1).map Prod.fst).nodup_iff).mpr hnd
  · exact sortBy_pairwise keyLe_trans keyLe_total r1
  · exact sortBy_pairwise keyLe_trans keyLe_total r2

/-! ## Lemmas: characterizing create -/

theorem fsGet_none_of_isfile_false {fs : FS} {p : String} (h : fsIsFile fs p = false) :
    fsGet fs p = none := by
  unfold fsIsFile at h
  cases hg : fsGet fs p
  · rfl
  · rw [hg] at h; simp at h

theorem create_hit (m : Manager) (exec : ExecBehavior) (fs : FS) (js : Record)
    (n : Nat) (error stdout : String)
    (h : fsIsFile fs (outfile m fs js n) = true) :
    create m exec fs js n "" error stdout =
      ⟨.ok (outfile m fs js n), fs, [],
        [.pstr ("Existing simulation " ++ strTake (hashinput js) 6 ++ "..." ++
          strLast (outfile m fs js n) 9)]⟩ := by
  simp only [create, bne_self_eq_false, Bool.false_eq_true, if_false, h, if_true]

theorem create_args_eq (m : Manager) (fs : FS) (js : Record) (n : Nat) :
    (if n == 0 then
        [m.executable, jsonfile m (inputWritten m fs js) js, outfile m fs js n]
      else [m.executable, jsonfile m (inputWritten m fs js) js, outfile m fs js n,
        outfile m (inputWritten m fs js) js (n - 1)]) = argsFor m fs js n := by
  unfold argsFor
  rw [jsonfile_inputWritten, outfile_inputWritten]

theorem create_miss_success (m : Manager) (exec : ExecBehavior) (fs : FS) (js : Record)
    (n : Nat) (error stdout : String) (so : List Nat) (out : Nat)
    (h : fsIsFile fs (outfile m fs js n) = false)
    (hx : exec (argsFor m fs js n) = .success so out) :
    create m exec fs js n "" error stdout =
      ⟨.ok (outfile m fs js n),
        fsWrite (inputWritten m fs js) (outfile m fs js n) (.outF out),
        [argsFor m fs js n],
        [runMsg m fs js n] ++ (if stdout == "display" then [.pbytes so] else [])⟩ := by
  simp only [create, bne_self_eq_false, Bool.false_eq_true, if_false, h]
  rw [create_args_eq, hx]

theorem create_miss_failure (m : Manager) (exec : ExecBehavior) (fs : FS) (js : Record)
    (n : Nat) (error stdout : String) (po : Option Nat) (st : List Nat)
    (h : fsIsFile fs (outfile m fs js n) = false)
    (hx : exec (argsFor m fs js n) = .failure po st) :
    create m exec fs js n "" error stdout =
      ⟨if error == "display" then .ok (outfile m fs js n)
          else if error == "raise" then .error (.cpe st)
          else .ok (outfile m fs js n),
        cleanedFS m fs js n, [argsFor m fs js n],
        if error == "display" then [runMsg m fs js n, .pbytes st]
          else [runMsg m fs js n]⟩ := by
  have hncget : fsGet (inputWritten m fs js) (outfile m fs js n) = none := by
    rw [fsGet_inputWritten_ne (outfile_ne_jsonfile m fs js n)]
    exact fsGet_none_of_isfile_false h
  have hreg4 : get_registry m (fsRemove (inputWritten m fs js) (outfile m fs js n)) =
      get_registry m fs := by
    rw [get_registry_remove_ne _ (outfile_ne_regPath m fs js n)]
    exact get_registry_inputWritten m fs js
  have hjf4 : jsonfile m (fsRemove (inputWritten m fs js) (outfile m fs js n)) js =
      jsonfile m fs js := jsonfile_congr js hreg4
  simp only [create, bne_self_eq_false, Bool.false_eq_true, if_false, h]
  rw [create_args_eq, hx]
  cases po with
  | none =>
    have hisf : fsIsFile (inputWritten m fs js) (outfile m fs js n) = false := by
      unfold fsIsFile
      rw [hncget]
      rfl
    simp only [hisf, Bool.false_eq_true, if_false]
    have hrm : fsRemove (inputWritten m fs js) (outfile m fs js n) =
        inputWritten m fs js := fsRemove_absent _ _ hncget
    unfold cleanedFS
    rw [hrm] at hjf4 ⊢
    by_cases hn : (n == 0) = true
    · simp only [hn, if_true, hjf4]
      split_ifs <;> rfl
    · simp only [hn, Bool.false_eq_true, if_false]
      split_ifs <;> rfl
  | some o =>
    have hisf : fsIsFile
        (fsWrite (inputWritten m fs js) (outfile m fs js n) (.outF o))
        (outfile m fs js n) = true := by
      unfold fsIsFile
      rw [fsGet_write_self]
      rfl
    simp only [hisf, if_true, fsRemove_write_self]
    unfold cleanedFS
    by_cases hn : (n == 0) = true
    · simp only [hn, if_true, hjf4]
      split_ifs <;> rfl
    · simp only [hn, Bool.false_eq_true, if_false]
      split_ifs <;> rfl

/-! ## Lemmas: serialization and digest -/

theorem dumps_congr_sort {r1 r2 : Record} (h : sortEntries r1 = sortEntries r2) :
    dumps r1 = dumps r2 := by
  unfold dumps
  rw [h]

theorem hashinput_congr_dumps {r1 r2 : Record} (h : dumps r1 = dumps r2) :
    hashinput r1 = hashinput r2 := by
  unfold hashinput
  rw [h]

theorem sha1Chunk_bounded (h : Nat × Nat × Nat × Nat × Nat) (c : List Nat) :
    Bounded32 (sha1Chunk h c) := by
  unfold Bounded32 sha1Chunk
  refine ⟨?_, ?_, ?_, ?_, ?_⟩ <;> exact Nat.mod_lt _ (by decide)

theorem foldl_sha1Chunk_bounded (l : List (List Nat)) :
    ∀ h, Bounded32 h → Bounded32 (l.foldl sha1Chunk h) := by
  induction l with
  | nil => intro h hb; exact hb
  | cons c t ih =>
    intro h hb
    rw [List.foldl_cons]
    exact ih _ (sha1Chunk_bounded h c)

theorem sha1Words_bounded (msg : List Nat) : Bounded32 (sha1Words msg) := by
  have hinit : Bounded32 (1732584193, 4023233417, 2562383102, 271733878, 3285377520) := by
    unfold Bounded32
    refine ⟨?_, ?_, ?_, ?_, ?_⟩ <;> decide
  simp only [sha1Words]
  exact foldl_sha1Chunk_bounded _ _ hinit

theorem digestNat_lt {h : Nat × Nat × Nat × Nat × Nat} (hb : Bounded32 h) :
    digestNat h < M32 ^ 5 := by
  obtain ⟨a, b, c, d, e⟩ := h
  unfold Bounded32 at hb
  simp only at hb
  obtain ⟨h1, h2, h3, h4, h5⟩ := hb
  rw [show M32 ^ 5 = 1461501637330902918203684832716283019655932542976 from by
    norm_num [M32]]
  unfold digestNat
  simp only
  unfold M32 at h1 h2 h3 h4 h5 ⊢
  omega

theorem digestNat_inj {h h' : Nat × Nat × Nat × Nat × Nat} (hb : Bounded32 h)
    (hb' : Bounded32 h') (he : digestNat h = digestNat h') : h = h' := by
  obtain ⟨a, b, c, d, e⟩ := h
  obtain ⟨a', b', c', d', e'⟩ := h'
  unfold Bounded32 at hb hb'
  simp only at hb hb'
  obtain ⟨h1, h2, h3, h4, h5⟩ := hb
  obtain ⟨h1', h2', h3', h4', h5'⟩ := hb'
  unfold digestNat at he
  simp only at he
  unfold M32 at h1 h2 h3 h4 h5 h1' h2' h3' h4' h5' he
  simp only [Prod.mk.injEq]
  omega

theorem hashinput_words_congr {r1 r2 : Record}
    (h : sha1Words (strBytes (dumps r1)) = sha1Words (strBytes (dumps r2))) :
    hashinput r1 = hashinput r2 := by
  unfold hashinput sha1Hex
  rw [h]

theorem escChar_a : escChar 'a' = ['a'] := by decide

theorem esc_replicate_a :
    ∀ k, ((List.replicate k 'a').map escChar).flatten = List.replicate k 'a' := by
  intro k
  induction k with
  | zero => rfl
  | succ k ih => simp [List.replicate_succ, escChar_a, ih]

theorem dumps_c3f_length (k : Nat) : (dumps (c3f k)).length = k + 9 := by
  have h1 : sortEntries (c3f k) = c3f k := rfl
  unfold dumps
  rw [h1]
  unfold c3f
  simp [sepJoin, escString, jvalStr, esc_replicate_a, escChar_a, List.length_append]

theorem dumps_c3f_inj {a b : Nat} (h : dumps (c3f a) = dumps (c3f b)) : a = b := by
  have hl := congrArg List.length h
  rw [dumps_c3f_length, dumps_c3f_length] at hl
  omega

/-! ## Lemmas: reading back a freshly written registry -/

theorem get_registry_set_nonempty (m : Manager) (fs : FS)
    (r : List (String × String)) (h : r.isEmpty = false) :
    get_registry m (set_registry m fs r) = r := by
  unfold set_registry
  rw [h]
  simp only [Bool.false_eq_true, if_false]
  unfold get_registry
  rw [fsGet_write_self]

theorem get_registry_set_empty (m : Manager) (fs : FS)
    (r : List (String × String)) (h : r.isEmpty = true) :
    get_registry m (set_registry m fs r) = [] := by
  unfold set_registry
  rw [h]
  simp only [if_true]
  unfold get_registry
  rw [fsGet_remove_self]
set_option maxRecDepth 1000000

/-! ## Claim theorems -/

/-- C5: `count(js)` returns the length of the contiguous restart chain
starting at index 0: `exists(js, k)` is true for every `k < count(js)`,
`exists(js, count(js))` is false, and any missing index bounds the count
from above, so indices beyond the first gap are never counted. -/
theorem C5_count_contiguous (m : Manager) (fs : FS) (js : Record) :
    (∀ k, k < count m fs js → existsFile m fs js k = true) ∧
    existsFile m fs js (count m fs js) = false ∧
    (∀ g, existsFile m fs js g = false → count m fs js ≤ g) := by
  refine ⟨?_, ?_, ?_⟩
  · intro k hk
    exact countAux_exists_below m fs js (fs.length + 1) 0 k (Nat.zero_le k) hk
  · obtain ⟨j, hj, hjf⟩ := exists_gap m fs js
    exact countAux_stops m fs js (fs.length + 1) 0 ⟨j, Nat.zero_le j, by omega, hjf⟩
  · intro g hg
    exact countAux_le m fs js (fs.length + 1) 0 g (Nat.zero_le g) hg

/-- Witness for C5 on a concrete two-member chain: index 1 exists, the index
`count` itself does not, and the gap at index 2 bounds the count. -/
theorem C5_count_contiguous_witness :
    existsFile mC fsChainC jsC 1 = true ∧
    existsFile mC fsChainC jsC (count mC fsChainC jsC) = false ∧
    count mC fsChainC jsC ≤ 2 :=
  ⟨(C5_count_contiguous mC fsChainC jsC).1 1 (by decide),
   (C5_count_contiguous mC fsChainC jsC).2.1,
   (C5_count_contiguous mC fsChainC jsC).2.2 2 (by decide)⟩

/-- C9 (implicit): `delete(js, 0)` is a complete no-op when the output file
for index 0 does not exist — the entire on-disk state is returned unchanged,
even if the input file exists and the key has a registered name. -/
theorem C9_delete_noop (m : Manager) (fs : FS) (js : Record)
    (h : existsFile m fs js 0 = false) : delete m fs js 0 = (none, fs) := by
  unfold delete
  unfold existsFile at h
  simp only [h, Bool.false_eq_true, if_false]

/-- Witness for C9: a state where the input file exists and the name is
registered but the index-0 output is absent; `delete` raises nothing and
leaves the state untouched. -/
theorem C9_delete_noop_witness :
    fsIsFile fsC9 (jsonfile mC fsC9 jsC) = true ∧
    rlookup (get_registry mC fsC9) (hashinput jsC) = some "myname" ∧
    existsFile mC fsC9 jsC 0 = false ∧
    delete mC fsC9 jsC 0 = (none, fsC9) :=
  ⟨by decide, by decide, by decide, C9_delete_noop mC fsC9 jsC (by decide)⟩

/-- C7: on a cache miss, `create` invokes the executable once with exactly
`[executable, inputPath, outputPath]` for `n = 0` and
`[executable, inputPath, outputPath, previousOutputPath]` for `n > 0`,
the previous output path being that of index `n - 1`. -/
theorem C7_exec_args (m : Manager) (exec : ExecBehavior) (fs : FS) (js : Record)
    (n : Nat) (error stdout : String)
    (h : existsFile m fs js n = false) :
    (n = 0 → (create m exec fs js n "" error stdout).calls =
      [[m.executable, jsonfile m fs js, outfile m fs js 0]]) ∧
    (0 < n → (create m exec fs js n "" error stdout).calls =
      [[m.executable, jsonfile m fs js, outfile m fs js n, outfile m fs js (n - 1)]]) := by
  have hcalls : (create m exec fs js n "" error stdout).calls = [argsFor m fs js n] := by
    cases hx : exec (argsFor m fs js n) with
    | success so out => rw [create_miss_success m exec fs js n error stdout so out h hx]
    | failure po st => rw [create_miss_failure m exec fs js n error stdout po st h hx]
  constructor
  · rintro rfl
    rw [hcalls]
    unfold argsFor
    simp
  · intro hn
    rw [hcalls]
    unfold argsFor
    rw [if_neg (by simp; omega)]

/-- Witness for C7 at a concrete cache miss with `n = 0`. -/
theorem C7_exec_args_witness :
    (create mC execOkC [] jsC 0 "" "raise" "ignore").calls =
      [[mC.executable, jsonfile mC [] jsC, outfile mC [] jsC 0]] :=
  (C7_exec_args mC execOkC [] jsC 0 "raise" "ignore" (by decide)).1 rfl

/-- C8: the output path is the spec formula over the directory, the resolved
display name, the output extension and the index: index 0 unsuffixed, `n > 0`
suffixed with `0x` plus lowercase hex digits, and extension `json` suffixed
with `_out`, which cannot collide with the input file. -/
theorem C8_outfile_formula (m : Manager) (fs : FS) (js : Record) (n : Nat) :
    outfile m fs js n = specOutfile m.directory (resolveName m fs js) m.filetype n ∧
    (∀ c, c ∈ hexDigits n → c ∈ hexCharset) ∧
    (m.filetype = "json" → outfile m fs js n ≠ jsonfile m fs js) := by
  refine ⟨?_, hexDigits_mem n, fun _ => outfile_ne_jsonfile m fs js n⟩
  rw [outfile_eq]
  unfold specOutfile
  by_cases hn : n = 0
  · subst hn
    rw [if_neg (show ¬ (0 : Nat) < 0 by omega), if_pos (show (0 : Nat) = 0 from rfl)]
    by_cases hft : m.filetype = "json"
    · rw [if_pos (show (m.filetype == "json") = true by simp [hft]), if_pos hft]
      apply congrArg (pjoin m.directory)
      apply strData_inj
      simp [String.data_append]
    · rw [if_neg (show ¬ (m.filetype == "json") = true by simp [hft]), if_neg hft]
      apply congrArg (pjoin m.directory)
      apply strData_inj
      simp [String.data_append]
  · rw [if_pos (show 0 < n by omega), if_neg hn]
    by_cases hft : m.filetype = "json"
    · rw [if_pos (show (m.filetype == "json") = true by simp [hft]), if_pos hft]
      apply congrArg (pjoin m.directory)
      apply strData_inj
      simp [String.data_append, pyHex_data]
    · rw [if_neg (show ¬ (m.filetype == "json") = true by simp [hft]), if_neg hft]
      apply congrArg (pjoin m.directory)
      apply strData_inj
      simp [String.data_append, pyHex_data]

/-- Witness for C8 with extension `json` and index 1: the formula holds, the
suffix digit is a lowercase hex character, and the output path differs from
the input path. -/
theorem C8_outfile_formula_witness :
    outfile mCj [] jsC 1 = specOutfile mCj.directory (resolveName mCj [] jsC)
      mCj.filetype 1 ∧
    '1' ∈ hexCharset ∧
    outfile mCj [] jsC 1 ≠ jsonfile mCj [] jsC :=
  ⟨(C8_outfile_formula mCj [] jsC 1).1,
   (C8_outfile_formula mCj [] jsC 1).2.1 '1' (by decide),
   (C8_outfile_formula mCj [] jsC 1).2.2 rfl⟩

theorem get_registry_none {m : Manager} {fs : FS}
    (h : fsGet fs (regPath m) = none) : get_registry m fs = [] := by
  unfold get_registry
  rw [h]

/-- C2: when the executable exits nonzero on a cache miss, the attempted
output file is removed if it was created, the input file is removed exactly
when `n = 0` (the shared input of a restart chain is preserved for `n > 0`),
and the error policy applies: `raise` propagates the CalledProcessError,
`display` prints the captured stderr and returns normally, `ignore` returns
normally; the non-raising policies return the intended output path, which
does not exist after the call. -/
theorem C2_failure_cleanup (m : Manager) (exec : ExecBehavior) (fs : FS)
    (js : Record) (n : Nat) (stdout : String) (po : Option Nat) (st : List Nat)
    (hmiss : existsFile m fs js n = false)
    (hfail : exec (argsFor m fs js n) = .failure po st) :
    (create m exec fs js n "" "raise" stdout).result = .error (.cpe st) ∧
    (create m exec fs js n "" "display" stdout).result = .ok (outfile m fs js n) ∧
    PrintItem.pbytes st ∈ (create m exec fs js n "" "display" stdout).prints ∧
    (create m exec fs js n "" "ignore" stdout).result = .ok (outfile m fs js n) ∧
    (∀ e, (create m exec fs js n "" e stdout).fs = cleanedFS m fs js n) ∧
    fsGet (cleanedFS m fs js n) (outfile m fs js n) = none ∧
    (n = 0 → fsGet (cleanedFS m fs js n) (jsonfile m fs js) = none) ∧
    (0 < n → fsIsFile (cleanedFS m fs js n) (jsonfile m fs js) = true) := by
  have hr := create_miss_failure m exec fs js n "raise" stdout po st hmiss hfail
  have hd := create_miss_failure m exec fs js n "display" stdout po st hmiss hfail
  have hi := create_miss_failure m exec fs js n "ignore" stdout po st hmiss hfail
  refine ⟨?_, ?_, ?_, ?_, ?_, ?_, ?_, ?_⟩
  · rw [hr]
    rfl
  · rw [hd]
    rfl
  · rw [hd]
    simp
  · rw [hi]
    rfl
  · intro e
    rw [create_miss_failure m exec fs js n e stdout po st hmiss hfail]
  · unfold cleanedFS
    by_cases hn : (n == 0) = true
    · simp only [hn, if_true]
      rw [fsGet_remove_ne _ _ _ (outfile_ne_jsonfile m fs js n)]
      exact fsGet_remove_self _ _
    · simp only [hn, Bool.false_eq_true, if_false]
      exact fsGet_remove_self _ _
  · intro hn0
    unfold cleanedFS
    have hb : (n == 0) = true := by simp [hn0]
    simp only [hb, if_true]
    exact fsGet_remove_self _ _
  · intro hnpos
    unfold cleanedFS
    have hb : (n == 0) = false := by simp only [beq_eq_false_iff_ne, ne_eq]; omega
    simp only [hb, Bool.false_eq_true, if_false]
    unfold fsIsFile
    rw [fsGet_remove_ne _ _ _ (Ne.symm (outfile_ne_jsonfile m fs js n))]
    exact fsIsFile_inputWritten_json m fs js

/-- Witness for C2 at a concrete cache miss with a failing executable. -/
theorem C2_failure_cleanup_witness :
    (create mC execFailC [] jsC 0 "" "raise" "ignore").result =
      .error (.cpe [9]) ∧
    (create mC execFailC [] jsC 0 "" "ignore" "ignore").result =
      .ok (outfile mC [] jsC 0) ∧
    fsGet (cleanedFS mC [] jsC 0) (outfile mC [] jsC 0) = none ∧
    fsGet (cleanedFS mC [] jsC 0) (jsonfile mC [] jsC) = none := by
  have h := C2_failure_cleanup mC execFailC [] jsC 0 "ignore" none [9]
    (by decide) rfl
  exact ⟨h.1, h.2.2.2.1, h.2.2.2.2.2.1, h.2.2.2.2.2.2.1 rfl⟩

/-- C6 (amended): `delete(js, n)` removes the output for index `n` when
present; for `n = 0` with the input file also present it additionally
removes the input file and deregisters the display name, while for `n = 0`
with the input file absent the unguarded input removal raises
`FileNotFoundError` after the output is gone, leaving the registry binding
intact; for `n > 0` it removes only that one output, leaving every other
path — input file, registry, and the other chain members — unchanged. -/
theorem C6_delete_scope (m : Manager) (fs : FS) (js : Record) (n : Nat)
    (h : existsFile m fs js n = true) :
    (n = 0 → fsIsFile fs (jsonfile m fs js) = true →
      (delete m fs js 0).1 = none ∧
      fsGet (delete m fs js 0).2 (outfile m fs js 0) = none ∧
      fsGet (delete m fs js 0).2 (jsonfile m fs js) = none ∧
      rlookup (get_registry m (delete m fs js 0).2) (hashinput js) = none) ∧
    (n = 0 → fsIsFile fs (jsonfile m fs js) = false →
      (∃ e, (delete m fs js 0).1 = some e) ∧
      fsGet (delete m fs js 0).2 (outfile m fs js 0) = none ∧
      get_registry m (delete m fs js 0).2 = get_registry m fs) ∧
    (0 < n →
      (delete m fs js n).1 = none ∧
      fsGet (delete m fs js n).2 (outfile m fs js n) = none ∧
      (∀ p, p ≠ outfile m fs js n → fsGet (delete m fs js n).2 p = fsGet fs p) ∧
      get_registry m (delete m fs js n).2 = get_registry m fs ∧
      (∀ k, k ≠ n → fsGet (delete m fs js n).2 (outfile m fs js k) =
        fsGet fs (outfile m fs js k))) := by
  refine ⟨?_, ?_, ?_⟩
  · rintro rfl hin
    unfold existsFile at h
    simp only [delete, h, if_true, beq_self_eq_true]
    have hreg1 : get_registry m (fsRemove fs (outfile m fs js 0)) =
        get_registry m fs :=
      get_registry_remove_ne _ (outfile_ne_regPath m fs js 0)
    rw [jsonfile_congr js hreg1]
    have hin1 : fsIsFile (fsRemove fs (outfile m fs js 0))
        (jsonfile m fs js) = true := by
      unfold fsIsFile
      rw [fsGet_remove_ne _ _ _ (Ne.symm (outfile_ne_jsonfile m fs js 0))]
      exact hin
    have hrm : osRemove (fsRemove fs (outfile m fs js 0)) (jsonfile m fs js) =
        (none, fsRemove (fsRemove fs (outfile m fs js 0)) (jsonfile m fs js)) := by
      simp only [osRemove, hin1, if_true]
    rw [hrm]
    dsimp only
    refine ⟨rfl, ?_⟩
    by_cases hjreg : jsonfile m fs js = regPath m
    · have hR : get_registry m
          (fsRemove (fsRemove fs (outfile m fs js 0)) (jsonfile m fs js)) = [] := by
        apply get_registry_none
        rw [hjreg]
        exact fsGet_remove_self _ _
      rw [hR]
      simp only [rlookup, List.find?_nil, Option.map_none', Option.isSome_none,
        Bool.false_eq_true, if_false]
      refine ⟨?_, ?_, ?_⟩
      · rw [fsGet_set_registry_ne _ _ (outfile_ne_regPath m fs js 0)]
        rw [fsGet_remove_ne _ _ _ (outfile_ne_jsonfile m fs js 0)]
        exact fsGet_remove_self _ _
      · rw [hjreg]
        unfold set_registry
        simp only [List.isEmpty_nil, if_true]
        exact fsGet_remove_self _ _
      · rw [get_registry_set_empty m _ _ (by rfl)]
        rfl
    · have hreg2 : get_registry m
          (fsRemove (fsRemove fs (outfile m fs js 0)) (jsonfile m fs js)) =
          get_registry m fs := by
        rw [get_registry_remove_ne _ hjreg, hreg1]
      rw [hreg2]
      refine ⟨?_, ?_, ?_⟩
      · rw [fsGet_set_registry_ne _ _ (outfile_ne_regPath m fs js 0)]
        rw [fsGet_remove_ne _ _ _ (outfile_ne_jsonfile m fs js 0)]
        exact fsGet_remove_self _ _
      · rw [fsGet_set_registry_ne _ _ hjreg]
        exact fsGet_remove_self _ _
      · by_cases hlk : (rlookup (get_registry m fs) (hashinput js)).isSome = true
        · simp only [hlk, if_true]
          by_cases hemp : (rerase (get_registry m fs) (hashinput js)).isEmpty = true
          · rw [get_registry_set_empty m _ _ hemp]
            rfl
          · rw [get_registry_set_nonempty m _ _ (by
              cases he : (rerase (get_registry m fs) (hashinput js)).isEmpty
              · rfl
              · exact absurd he hemp)]
            exact rlookup_rerase _ _
        · simp only [hlk, Bool.false_eq_true, if_false]
          have hnone : rlookup (get_registry m fs) (hashinput js) = none := by
            cases hx : rlookup (get_registry m fs) (hashinput js)
            · rfl
            · rw [hx] at hlk
              simp at hlk
          by_cases hemp : (get_registry m fs).isEmpty = true
          · rw [get_registry_set_empty m _ _ hemp]
            rfl
          · rw [get_registry_set_nonempty m _ _ (by
              cases he : (get_registry m fs).isEmpty
              · rfl
              · exact absurd he hemp)]
            exact hnone
  · rintro rfl hin
    unfold existsFile at h
    simp only [delete, h, if_true, beq_self_eq_true]
    have hreg1 : get_registry m (fsRemove fs (outfile m fs js 0)) =
        get_registry m fs :=
      get_registry_remove_ne _ (outfile_ne_regPath m fs js 0)
    rw [jsonfile_congr js hreg1]
    have hin1 : fsIsFile (fsRemove fs (outfile m fs js 0))
        (jsonfile m fs js) = false := by
      unfold fsIsFile
      rw [fsGet_remove_ne _ _ _ (Ne.symm (outfile_ne_jsonfile m fs js 0))]
      exact hin
    have hrm : osRemove (fsRemove fs (outfile m fs js 0)) (jsonfile m fs js) =
        (some (Exn.fileNotFound (jsonfile m fs js)),
          fsRemove fs (outfile m fs js 0)) := by
      simp only [osRemove, hin1, Bool.false_eq_true, if_false]
    rw [hrm]
    dsimp only
    exact ⟨⟨_, rfl⟩, fsGet_remove_self _ _, hreg1⟩
  · intro hn
    unfold existsFile at h
    simp only [delete, h, if_true]
    have hb : (n == 0) = false := by
      simp only [beq_eq_false_iff_ne, ne_eq]
      omega
    simp only [hb, Bool.false_eq_true, if_false]
    refine ⟨trivial, fsGet_remove_self _ _, ?_, ?_, ?_⟩
    · intro p hp
      exact fsGet_remove_ne _ _ _ hp
    · exact get_registry_remove_ne _ (outfile_ne_regPath m fs js n)
    · intro k hk
      exact fsGet_remove_ne _ _ _ (fun he => hk (outfile_inj he))

/-- Counterexample for the frozen C6: on a state where the index-0 output
exists and the record is registered but its input file is absent, `delete`
removes the output and then raises `FileNotFoundError` from the unguarded
input removal, so the display name is never deregistered — the registry
still maps the record's hash to `zz` afterwards. -/
theorem C6_counterexample :
    fsIsFile fsC6cx (outfile mC fsC6cx jsC 0) = true ∧
    (delete mC fsC6cx jsC 0).1 =
      some (Exn.fileNotFound (pjoin "./data" "zz.json")) ∧
    rlookup (get_registry mC (delete mC fsC6cx jsC 0).2) (hashinput jsC) =
      some "zz" := by
  refine ⟨by decide, by decide, by decide⟩

/-- Witness for C6 on a concrete two-member chain with the input file
present: deleting index 0 raises nothing, removes the input file, and
deregisters the hash; deleting index 1 raises nothing and removes only the
index-1 output, leaving the index-0 output and the registry untouched. -/
theorem C6_delete_scope_witness :
    (delete mC fsChainC jsC 0).1 = none ∧
    fsGet (delete mC fsChainC jsC 0).2 (jsonfile mC fsChainC jsC) = none ∧
    rlookup (get_registry mC (delete mC fsChainC jsC 0).2) (hashinput jsC) =
      none ∧
    (delete mC fsChainC jsC 1).1 = none ∧
    fsGet (delete mC fsChainC jsC 1).2 (outfile mC fsChainC jsC 1) = none ∧
    fsGet (delete mC fsChainC jsC 1).2 (outfile mC fsChainC jsC 0) =
      fsGet fsChainC (outfile mC fsChainC jsC 0) ∧
    get_registry mC (delete mC fsChainC jsC 1).2 = get_registry mC fsChainC := by
  have h0 := (C6_delete_scope mC fsChainC jsC 0 (by decide)).1 rfl (by decide)
  have h1 := (C6_delete_scope mC fsChainC jsC 1 (by decide)).2.2 (by decide)
  exact ⟨h0.1, h0.2.2.1, h0.2.2.2, h1.1, h1.2.1, h1.2.2.2.2 0 (by decide),
    h1.2.2.2.1⟩

/-- C1 (amended): if the resolved output file for `(r, n)` already exists,
`create(r, n)` returns that path unchanged — state untouched, executable not
invoked; hence, provided the executable invocation succeeds, calling
`create` twice with identical `r` and no intervening `delete` returns the
same path both times and invokes the executable at most once.  (Without the
success proviso the at-most-once part fails: see the counterexample.) -/
theorem C1_create_idempotent (m : Manager) (exec : ExecBehavior) (fs : FS)
    (js : Record) (n : Nat) (error stdout : String) :
    (existsFile m fs js n = true →
      (create m exec fs js n "" error stdout).result = .ok (outfile m fs js n) ∧
      (create m exec fs js n "" error stdout).fs = fs ∧
      (create m exec fs js n "" error stdout).calls = []) ∧
    (∀ so out, exec (argsFor m fs js n) = .success so out →
      (create m exec fs js n "" error stdout).result = .ok (outfile m fs js n) ∧
      (create m exec (create m exec fs js n "" error stdout).fs js n "" error
        stdout).result = .ok (outfile m fs js n) ∧
      (create m exec fs js n "" error stdout).calls.length +
        (create m exec (create m exec fs js n "" error stdout).fs js n "" error
          stdout).calls.length ≤ 1) := by
  constructor
  · intro h
    rw [create_hit m exec fs js n error stdout h]
    exact ⟨rfl, rfl, rfl⟩
  · intro so out hx
    by_cases hhit : existsFile m fs js n = true
    · have h1 := create_hit m exec fs js n error stdout hhit
      rw [h1]
      dsimp only
      rw [h1]
      exact ⟨rfl, rfl, by simp⟩
    · have hmiss : existsFile m fs js n = false := by
        cases hx2 : existsFile m fs js n
        · rfl
        · exact absurd hx2 hhit
      have h1 := create_miss_success m exec fs js n error stdout so out hmiss hx
      rw [h1]
      dsimp only
      have hreg : get_registry m (fsWrite (inputWritten m fs js)
          (outfile m fs js n) (.outF out)) = get_registry m fs := by
        rw [get_registry_write_ne _ _ (outfile_ne_regPath m fs js n)]
        exact get_registry_inputWritten m fs js
      have hout2 : outfile m (fsWrite (inputWritten m fs js) (outfile m fs js n)
          (.outF out)) js n = outfile m fs js n := outfile_congr js n hreg
      have hhit2 : existsFile m (fsWrite (inputWritten m fs js)
          (outfile m fs js n) (.outF out)) js n = true := by
        unfold existsFile fsIsFile
        rw [hout2, fsGet_write_self]
        rfl
      have h2 := create_hit m exec _ js n error stdout hhit2
      rw [h2]
      refine ⟨rfl, ?_, by simp⟩
      dsimp only
      rw [hout2]

/-- Counterexample to C1 as stated: with a failing executable and the
`ignore` error policy, two identical `create` calls return the same path
both times yet invoke the executable twice, because the first failure is
rolled back and the second call misses the cache again. -/
theorem C1_counterexample :
    (create mC execFailC [] jsC 0 "" "ignore" "ignore").result =
      .ok (outfile mC [] jsC 0) ∧
    (create mC execFailC
      (create mC execFailC [] jsC 0 "" "ignore" "ignore").fs jsC 0 ""
      "ignore" "ignore").result = .ok (outfile mC [] jsC 0) ∧
    ¬ ((create mC execFailC [] jsC 0 "" "ignore" "ignore").calls.length +
       (create mC execFailC
         (create mC execFailC [] jsC 0 "" "ignore" "ignore").fs jsC 0 ""
         "ignore" "ignore").calls.length ≤ 1) := by
  refine ⟨rfl, rfl, by decide⟩

/-- Witness for the amended C1: a concrete cache hit is a complete no-op,
and with an always-succeeding executable two calls from the empty state
invoke the executable exactly once. -/
theorem C1_create_idempotent_witness :
    (create mC execOkC fsChainC jsC 0 "" "raise" "ignore").fs = fsChainC ∧
    (create mC execOkC [] jsC 0 "" "raise" "ignore").result =
      .ok (outfile mC [] jsC 0) ∧
    (create mC execOkC [] jsC 0 "" "raise" "ignore").calls.length +
      (create mC execOkC (create mC execOkC [] jsC 0 "" "raise" "ignore").fs jsC 0
        "" "raise" "ignore").calls.length ≤ 1 := by
  have h1 := (C1_create_idempotent mC execOkC fsChainC jsC 0 "raise" "ignore").1
    (by decide)
  have h2 := (C1_create_idempotent mC execOkC [] jsC 0 "raise" "ignore").2 [3] 7 rfl
  exact ⟨h1.2.1, h2.1, h2.2.2⟩

/-- C3 (amended): `hashinput` is deterministic and key-order independent —
byte-identical canonical serializations hash equally, records differing only
in the order of their (distinct) keys hash equally, and the integer record
`{"a": 10}` hashes differently from the float record `{"a": 10.0}`.  (The
converse — equal hashes implying identical serializations — cannot hold for
a 160-bit digest: see the counterexample.) -/
theorem C3_hash_canonical :
    (∀ r1 r2 : Record, dumps r1 = dumps r2 → hashinput r1 = hashinput r2) ∧
    (∀ r1 r2 : Record, List.Perm r1 r2 → (r1.map Prod.fst).Nodup →
      hashinput r1 = hashinput r2) ∧
    hashinput [("a", Jval.jint 10)] ≠ hashinput [("a", Jval.jfloat 10)] := by
  refine ⟨fun r1 r2 h => hashinput_congr_dumps h,
    fun r1 r2 hp hnd =>
      hashinput_congr_dumps (dumps_congr_sort (sortEntries_perm_eq hp hnd)), ?_⟩
  decide

/-- Counterexample to the full biconditional of C3: because SHA-1 digests
have only 2^160 values while the records `c3f k` have pairwise distinct
canonical serializations for every `k`, two distinct records must share a
hash, so hash equality cannot imply byte-identical serialization. -/
theorem C3_counterexample :
    ¬ (∀ r1 r2 : Record, hashinput r1 = hashinput r2 ↔ dumps r1 = dumps r2) := by
  intro H
  have hbound : ∀ k : Nat,
      digestNat (sha1Words (strBytes (dumps (c3f k)))) < M32 ^ 5 :=
    fun k => digestNat_lt (sha1Words_bounded _)
  obtain ⟨a, b, hab, hg⟩ := Finite.exists_ne_map_eq_of_infinite
    (fun k : Nat => (⟨digestNat (sha1Words (strBytes (dumps (c3f k)))),
      hbound k⟩ : Fin (M32 ^ 5)))
  have hdig : digestNat (sha1Words (strBytes (dumps (c3f a)))) =
      digestNat (sha1Words (strBytes (dumps (c3f b)))) :=
    congrArg Fin.val hg
  have hwords := digestNat_inj (sha1Words_bounded _) (sha1Words_bounded _) hdig
  have hdumps := (H (c3f a) (c3f b)).mp (hashinput_words_congr hwords)
  exact hab (dumps_c3f_inj hdumps)

/-- Witness for the amended C3: two concrete records differing only in key
order hash equally. -/
theorem C3_hash_canonical_witness :
    hashinput [("a", Jval.jint 1), ("b", Jval.jint 2)] =
      hashinput [("b", Jval.jint 2), ("a", Jval.jint 1)] :=
  C3_hash_canonical.2.1 [("a", Jval.jint 1), ("b", Jval.jint 2)]
    [("b", Jval.jint 2), ("a", Jval.jint 1)] (by decide) (by decide)

/-- C4: `register(js, name)` raises, leaving the state untouched, exactly
when: the name is the reserved `"simplesimdb"`; the key is already bound to
a different name; the key is unbound but an input file exists on disk under
the raw key; or the name is already bound to a different key.  All checks
precede the registry write, and a successful call binds the name. -/
theorem C4_register (m : Manager) (fs : FS) (js : Record) (name : String) :
    ((∃ e, (register m fs js name).1 = some e) ↔
      (name = "simplesimdb" ∨
       (∃ v, rlookup (get_registry m fs) (hashinput js) = some v ∧ name ≠ v) ∨
       (rlookup (get_registry m fs) (hashinput js) = none ∧
         fsIsFile fs (pjoin m.directory (hashinput js ++ ".json")) = true) ∨
       (∃ kv, kv ∈ get_registry m fs ∧ kv.2 = name ∧ kv.1 ≠ hashinput js))) ∧
    ((register m fs js name).1.isSome = true → (register m fs js name).2 = fs) ∧
    ((register m fs js name).1 = none →
      rlookup (get_registry m ((register m fs js name).2)) (hashinput js) =
        some name) := by
  by_cases h1 : (name == "simplesimdb") = true
  · have hname : name = "simplesimdb" := by
      rw [beq_iff_eq] at h1
      exact h1
    have hred : register m fs js name =
        (some (.nameError
          "The name simplesimdb is not allowed. Choose a different name!"), fs) := by
      simp only [register, h1, if_true]
    rw [hred]
    exact ⟨⟨fun _ => Or.inl hname, fun _ => ⟨_, rfl⟩⟩, fun _ => rfl,
      fun hc => by simp at hc⟩
  · have hname : name ≠ "simplesimdb" := by
      intro he
      rw [beq_iff_eq] at h1
      exact h1 he
    cases hlook : rlookup (get_registry m fs) (hashinput js) with
    | some bound =>
      by_cases h2 : (name != bound) = true
      · have hred : register m fs js name =
            (some (.nameError "already known under a different name"), fs) := by
          simp only [register, if_neg h1, hlook, h2, if_true]
        rw [hred]
        exact ⟨⟨fun _ => Or.inr (Or.inl ⟨bound, rfl, bne_iff_ne.mp h2⟩),
          fun _ => ⟨_, rfl⟩⟩, fun _ => rfl, fun hc => by simp at hc⟩
      · have heq : name = bound := by
          rw [bne_iff_ne] at h2
          exact not_not.mp h2
        by_cases h3 : ((get_registry m fs).any
            fun kv => kv.2 == name && kv.1 != hashinput js) = true
        · have hred : register m fs js name =
              (some (.nameError "already in use for a different simulation"),
                fs) := by
            simp only [register, if_neg h1, hlook, if_neg h2, h3, if_true]
          rw [hred]
          refine ⟨⟨fun _ => ?_, fun _ => ⟨_, rfl⟩⟩, fun _ => rfl,
            fun hc => by simp at hc⟩
          obtain ⟨kv, hmem, hpred⟩ := List.any_eq_true.mp h3
          rw [Bool.and_eq_true] at hpred
          exact Or.inr (Or.inr (Or.inr ⟨kv, hmem, beq_iff_eq.mp hpred.1,
            bne_iff_ne.mp hpred.2⟩))
        · have hred : register m fs js name =
              (none, set_registry m fs (get_registry m fs)) := by
            simp only [register, if_neg h1, hlook, if_neg h2, if_neg h3]
          rw [hred]
          refine ⟨⟨fun hc => ?_, fun hrhs => ?_⟩, fun hc => by simp at hc,
            fun _ => ?_⟩
          · obtain ⟨e, he⟩ := hc
            simp at he
          · exfalso
            rcases hrhs with h | ⟨v, hv, hnv⟩ | ⟨hnone, _⟩ | ⟨kv, hmem, hval, hne⟩
            · exact hname h
            · exact hnv (heq.trans (Option.some.inj hv))
            · exact Option.noConfusion hnone
            · refine absurd (List.any_eq_true.mpr ⟨kv, hmem, ?_⟩) h3
              rw [Bool.and_eq_true]
              exact ⟨beq_iff_eq.mpr hval, bne_iff_ne.mpr hne⟩
          · have hne : (get_registry m fs).isEmpty = false := by
              cases hr : get_registry m fs with
              | nil =>
                rw [hr] at hlook
                simp [rlookup] at hlook
              | cons a t => rfl
            rw [get_registry_set_nonempty m _ _ hne, hlook, heq]
    | none =>
      by_cases h2 : fsIsFile fs (pjoin m.directory (hashinput js ++ ".json")) = true
      · have hred : register m fs js name =
            (some (.nameError "input file already exists under the raw key"),
              fs) := by
          simp only [register, if_neg h1, hlook, h2, if_true]
        rw [hred]
        exact ⟨⟨fun _ => Or.inr (Or.inr (Or.inl ⟨rfl, h2⟩)),
          fun _ => ⟨_, rfl⟩⟩, fun _ => rfl, fun hc => by simp at hc⟩
      · have hins : rinsert (get_registry m fs) (hashinput js) name =
            get_registry m fs ++ [(hashinput js, name)] := by
          unfold rinsert
          rw [hlook]
        by_cases h3 : ((get_registry m fs ++ [(hashinput js, name)]).any
            fun kv => kv.2 == name && kv.1 != hashinput js) = true
        · have hred : register m fs js name =
              (some (.nameError "already in use for a different simulation"),
                fs) := by
            simp only [register, if_neg h1, hlook, if_neg h2, hins, h3, if_true]
          rw [hred]
          refine ⟨⟨fun _ => ?_, fun _ => ⟨_, rfl⟩⟩, fun _ => rfl,
            fun hc => by simp at hc⟩
          obtain ⟨kv, hmem, hpred⟩ := List.any_eq_true.mp h3
          rw [Bool.and_eq_true] at hpred
          rw [List.mem_append] at hmem
          rcases hmem with hmem | hmem
          · exact Or.inr (Or.inr (Or.inr ⟨kv, hmem, beq_iff_eq.mp hpred.1,
              bne_iff_ne.mp hpred.2⟩))
          · rw [List.mem_singleton] at hmem
            subst hmem
            exact absurd rfl (bne_iff_ne.mp hpred.2)
        · have hred : register m fs js name =
              (none, set_registry m fs
                (get_registry m fs ++ [(hashinput js, name)])) := by
            simp only [register, if_neg h1, hlook, if_neg h2, hins, if_neg h3]
          rw [hred]
          refine ⟨⟨fun hc => ?_, fun hrhs => ?_⟩, fun hc => by simp at hc,
            fun _ => ?_⟩
          · obtain ⟨e, he⟩ := hc
            simp at he
          · exfalso
            rcases hrhs with h | ⟨v, hv, hnv⟩ | ⟨_, hfile⟩ | ⟨kv, hmem, hval, hne⟩
            · exact hname h
            · exact Option.noConfusion hv
            · exact h2 hfile
            · refine absurd (List.any_eq_true.mpr
                ⟨kv, List.mem_append_left _ hmem, ?_⟩) h3
              rw [Bool.and_eq_true]
              exact ⟨beq_iff_eq.mpr hval, bne_iff_ne.mpr hne⟩
          · have hne : (get_registry m fs ++ [(hashinput js, name)]).isEmpty
                = false := by
              cases get_registry m fs <;> rfl
            rw [get_registry_set_nonempty m _ _ hne]
            exact rlookup_append_single _ _ _ hlook

/-- Witness for C4: registering the reserved name fails and leaves the
(empty) state unchanged. -/
theorem C4_register_witness :
    (∃ e, (register mC [] jsC "simplesimdb").1 = some e) ∧
    (register mC [] jsC "simplesimdb").2 = [] := by
  have h := C4_register mC [] jsC "simplesimdb"
  have he := h.1.mpr (Or.inl rfl)
  refine ⟨he, ?_⟩
  obtain ⟨e, hee⟩ := he
  exact h.2.1 (by rw [hee]; rfl)

/-- C10 (implicit): `files()` only considers directory entries ending in
`.json` but not `out.json`; an entry registered under the display name
`fallout` (input file `fallout.json`) is therefore omitted from `files()`
and `table()`, and its files survive `delete_all()`, even though both its
input file and its index-0 output exist. -/
theorem C10_files_skips_out_json :
    strEndsWith "fallout.json" ".json" = true ∧
    strEndsWith "fallout.json" "out.json" = true ∧
    fsIsFile fsC10 (jsonfile mC fsC10 jsF) = true ∧
    existsFile mC fsC10 jsF 0 = true ∧
    resolveName mC fsC10 jsF = "fallout" ∧
    files mC fsC10 = .ok [] ∧
    table mC fsC10 = .ok [] ∧
    delete_all mC fsC10 = .ok
      [(pjoin "./data" "fallout.json", FData.jsonF jsF),
       (pjoin "./data" "fallout.nc", FData.outF 1)] := by
  refine ⟨by decide, by decide, by decide, by decide, by decide, rfl, rfl, rfl⟩
